import Mathlib

/-!
Verification of the ironink collaboration relay server.

This file gives a shallow embedding of the two core modules of the
repository and of the shutdown handler of the server entrypoint:

* `src/persistence.ts` — the debounced persistence scheduler against the
  R2 object store (`scheduleSave`, `cancelPendingSave`, `forceSave`,
  `saveAllPending`, `persistState`, `loadState`, `deleteState`,
  `getS3Client`, `getStateKey`);
* `src/y-websocket-utils.ts` — the room session / protocol router
  (`isEncryptedMessage`, `isEncryptedSyncMessage`, `messageListener`,
  `broadcastEncryptedMessage`, the update handler, `closeConn`, `send`,
  `setupWSConnection`, `getDocsForPersistence`);
* the server entrypoint's SIGTERM handler.

Byte sequences are modelled as `List Nat`; the operations the claims are
about never depend on byte wrap-around.  The external CRDT library
(yjs / y-protocols) is out of scope for the repository and is modelled as
an opaque `DocCapability` record of total functions.  Timers are modelled
explicitly: an armed timeout carries its fire deadline and the snapshot
getter it closed over; a getter is a function of the (global) time at
which it is evaluated, which captures the fact that the code's getters
read the room's current state at evaluation time.
-/

namespace IronInk

/-- Byte strings (Uint8Array contents). -/
abbrev Bytes := List Nat

/-! ### lib0 variable-length integer encoding (lib0/encoding, lib0/decoding) -/

/-- lib0 `writeVarUint` with an explicit recursion bound: little-endian
base-128 groups, high bit marks continuation.  The bound only has to
exceed the number of base-128 digits, which `writeVarUint` arranges. -/
def writeVarUintFuel (fuel n : Nat) : List Nat :=
  match fuel with
  | 0 => [n]
  | fuel + 1 => if 127 < n then (128 + n % 128) :: writeVarUintFuel fuel (n / 128) else [n]

/-- lib0 `writeVarUint`. -/
def writeVarUint (n : Nat) : List Nat :=
  writeVarUintFuel n n

/-- lib0 `readVarUint`: decodes a varint from the head of the buffer and
returns the remaining bytes; `none` models the out-of-bounds exception. -/
def readVarUint : Bytes → Option (Nat × Bytes)
  | [] => none
  | b :: rest =>
    if b < 128 then some (b, rest)
    else
      match readVarUint rest with
      | some (v, r) => some (b % 128 + 128 * v, r)
      | none => none

/-- lib0 `writeVarUint8Array`: varint length followed by the raw bytes. -/
def writeVarUint8Array (a : Bytes) : Bytes :=
  writeVarUint a.length ++ a

/-- lib0 `readVarUint8Array`: reads a varint length, then that many bytes;
`none` models the out-of-bounds exception. -/
def readVarUint8Array (m : Bytes) : Option (Bytes × Bytes) :=
  match readVarUint m with
  | none => none
  | some (len, rest) =>
    if len ≤ rest.length then some (rest.take len, rest.drop len) else none

/-! ### Frame classification (y-websocket-utils.ts) -/

/-- Legacy message-type tag `messageSync = 0`. -/
def messageSync : Nat := 0

/-- Legacy message-type tag `messageAwareness = 1`. -/
def messageAwareness : Nat := 1

/-- `ENCRYPTED_SYNC_VERSION = 0x01`. -/
def ENCRYPTED_SYNC_VERSION : Nat := 1

/-- `ENCRYPTED_AWARENESS_VERSION = 0x02`. -/
def ENCRYPTED_AWARENESS_VERSION : Nat := 2

/-- `ENCRYPTED_SYNC_COMPRESSED_VERSION = 0x03`. -/
def ENCRYPTED_SYNC_COMPRESSED_VERSION : Nat := 3

/-- `isEncryptedMessage`: a non-empty frame whose first byte is 0x01, 0x02
or 0x03. -/
def isEncryptedMessage (m : Bytes) : Bool :=
  match m with
  | [] => false
  | v :: _ =>
    v == ENCRYPTED_SYNC_VERSION || v == ENCRYPTED_AWARENESS_VERSION ||
      v == ENCRYPTED_SYNC_COMPRESSED_VERSION

/-- `isEncryptedSyncMessage`: a non-empty frame whose first byte is 0x01 or
0x03. -/
def isEncryptedSyncMessage (m : Bytes) : Bool :=
  match m with
  | [] => false
  | v :: _ =>
    v == ENCRYPTED_SYNC_VERSION || v == ENCRYPTED_SYNC_COMPRESSED_VERSION

/-! ### Connections and room sessions -/

/-- `wsReadyStateConnecting = 0`. -/
def wsReadyStateConnecting : Nat := 0

/-- `wsReadyStateOpen = 1`. -/
def wsReadyStateOpen : Nat := 1

/-- A WebSocket connection handle: its identity and its transport ready
state. -/
structure Conn where
  id : Nat
  readyState : Nat
deriving DecidableEq

/-- A room session (`WSSharedDoc`): the per-room record holding the
connection map (connection to the set of awareness client IDs it
controls), the legacy CRDT document state, the awareness states, the
cached encrypted blob and the encrypted-mode latch.  The JS `Map` of
connections is modelled as an insertion-ordered association list. -/
structure WSDoc where
  name : String
  conns : List (Conn × List Nat)
  yState : Bytes
  awStates : List (Nat × Bytes)
  encryptedState : Option Bytes
  isEncrypted : Bool
deriving DecidableEq

/-- The external CRDT collaborator (yjs / y-protocols), out of scope for
the repository and abstracted as total functions.
`readSyncMessage y payload` returns the new committed state, the bytes the
protocol wrote to the reply encoder after the type tag, and the list of
update notifications emitted while applying.  `applyAwarenessUpdate`
returns the new awareness states together with the added / updated /
removed client IDs. -/
structure SyncOutcome where
  yState : Bytes
  reply : Bytes
  updates : List Bytes

structure AwarenessOutcome where
  states : List (Nat × Bytes)
  added : List Nat
  updated : List Nat
  removed : List Nat

structure DocCapability where
  readSyncMessage : Bytes → Bytes → SyncOutcome
  applyAwarenessUpdate : List (Nat × Bytes) → Bytes → AwarenessOutcome
  encodeAwarenessUpdate : List (Nat × Bytes) → List Nat → Bytes
  encodeStateVector : Bytes → Bytes

/-- The source's `send`, with the connection-closing function it invokes
on a dead transport made an explicit parameter: `send` and `closeConn`
are mutually recursive in the source (a close can broadcast, and a
broadcast can close), and the parameter breaks the cycle so the cascade
can be bounded by fuel in `closeConnF`.  A transport that is neither
connecting nor open is treated as dead and closed (cascade included) and
gets no delivery; a live transport delivers the frame.  A transport-level
send error also routes to the close function, which on a just-closed dead
connection is a no-op, so the dead-transport branch already captures
it. -/
def sendWith (close : WSDoc → Conn → WSDoc × List (Nat × Bytes))
    (doc : WSDoc) (conn : Conn) (m : Bytes) : WSDoc × List (Nat × Bytes) :=
  let r :=
    if conn.readyState != wsReadyStateConnecting && conn.readyState != wsReadyStateOpen then
      close doc conn
    else (doc, [])
  if conn.readyState == wsReadyStateConnecting || conn.readyState == wsReadyStateOpen then
    (r.1, r.2 ++ [(conn.id, m)])
  else r

/-- Deliver one frame to each target in order, threading the session
state: the `conns.forEach` send loops, over a snapshot of the key list.
The snapshot is exact: the close cascade only ever removes dead
connections, and re-visiting an already-pruned dead connection is a
no-op with no delivery, exactly like the live-map iteration of
`forEach`. -/
def sendAllWith (close : WSDoc → Conn → WSDoc × List (Nat × Bytes))
    (doc : WSDoc) (targets : List Conn) (m : Bytes) : WSDoc × List (Nat × Bytes) :=
  match targets with
  | [] => (doc, [])
  | c :: cs =>
    let r := sendWith close doc c m
    let rest := sendAllWith close r.1 cs m
    (rest.1, r.2 ++ rest.2)

/-- `closeConn`, fuel-passing form.  A registered connection is removed
from the session's connection map and `removeAwarenessStates` drops the
awareness state of every client ID it controlled; when at least one state
was actually removed, the awareness `update` event fires with origin
`null` and `awarenessChangeHandler` broadcasts the encoded removal to
every remaining connection through `send` — and `send` on a dead
transport closes that connection too, so one close can cascade.  The
registry of sessions is never touched (the `docs.delete` line in the
source is commented out), and the removed connection's transport `close`
call is not session state.  The cascade depth is bounded by the number of
connections (each nested close removes one), rendered by the `fuel`
argument: entry points pass `doc.conns.length + 1`, which the cascade can
never exhaust. -/
def closeConnF (P : DocCapability) : Nat → WSDoc → Conn → WSDoc × List (Nat × Bytes)
  | 0, doc, _ => (doc, [])
  | fuel + 1, doc, conn =>
    if doc.conns.any (fun e => e.1 == conn) then
      let controlled := (doc.conns.find? (fun e => e.1 == conn)).elim [] Prod.snd
      let d1 := { doc with conns := doc.conns.filter (fun e => e.1 != conn) }
      let removed := controlled.filter (fun i => d1.awStates.any (fun a => a.1 == i))
      let d2 := { d1 with awStates := d1.awStates.filter (fun a => !(controlled.contains a.1)) }
      if removed.isEmpty then (d2, [])
      else
        let frame := writeVarUint messageAwareness ++
          writeVarUint8Array (P.encodeAwarenessUpdate d2.awStates removed)
        sendAllWith (fun d c => closeConnF P fuel d c) d2 (d2.conns.map Prod.fst) frame
    else (doc, [])

/-- `closeConn`: entry point with sufficient cascade fuel. -/
def closeConn (P : DocCapability) (doc : WSDoc) (conn : Conn) :
    WSDoc × List (Nat × Bytes) :=
  closeConnF P (doc.conns.length + 1) doc conn

/-- `send`: entry point, closing dead transports through `closeConn`. -/
def send (P : DocCapability) (doc : WSDoc) (conn : Conn) (m : Bytes) :
    WSDoc × List (Nat × Bytes) :=
  sendWith (closeConn P) doc conn m

/-- One frame to each target, closing dead transports through
`closeConn`. -/
def sendAll (P : DocCapability) (doc : WSDoc) (targets : List Conn) (m : Bytes) :
    WSDoc × List (Nat × Bytes) :=
  sendAllWith (closeConn P) doc targets m

/-- `broadcastEncryptedMessage`: send the frame to every connection of the
room except the sender. -/
def broadcastEncryptedMessage (P : DocCapability) (doc : WSDoc) (sender : Conn) (m : Bytes) :
    WSDoc × List (Nat × Bytes) :=
  sendAll P doc ((doc.conns.map Prod.fst).filter (fun c => c != sender)) m

/-- Send a frame to every connection of the room, the sender included
(the update handler and the awareness change handler fan out this way). -/
def broadcastAll (P : DocCapability) (doc : WSDoc) (m : Bytes) : WSDoc × List (Nat × Bytes) :=
  sendAll P doc (doc.conns.map Prod.fst) m

/-- The frame built by `updateHandler`: varint `messageSync`, then
`syncProtocol.writeUpdate` (varint tag 2 followed by the update as a
varint-length-framed byte array). -/
def encodeSyncUpdateFrame (u : Bytes) : Bytes :=
  writeVarUint messageSync ++ writeVarUint 2 ++ writeVarUint8Array u

/-- `updateHandler` invocations for each update notification emitted while
a sync payload was applied: each update is broadcast to all connections of
the room. -/
def broadcastUpdates (P : DocCapability) (doc : WSDoc) (us : List Bytes) :
    WSDoc × List (Nat × Bytes) :=
  match us with
  | [] => (doc, [])
  | u :: rest =>
    let r := broadcastAll P doc (encodeSyncUpdateFrame u)
    let r2 := broadcastUpdates P r.1 rest
    (r2.1, r.2 ++ r2.2)

/-- The result of handling one inbound frame: the updated session, the
frames handed to the transport (as `(connection id, frame)` pairs, in
order), and the rooms for which a debounced persistence save was
scheduled. -/
structure ListenResult where
  doc : WSDoc
  sends : List (Nat × Bytes)
  saves : List String
deriving DecidableEq

/-- Add-then-remove update of the set of awareness client IDs a
connection controls, performed by the awareness change handler when the
update originated from a connection. -/
def updateControlled (conns : List (Conn × List Nat)) (c : Conn)
    (added removed : List Nat) : List (Conn × List Nat) :=
  conns.map (fun e =>
    if e.1 == c then
      (e.1, (e.2 ++ added.filter (fun i => !(e.2.contains i))).filter
        (fun i => !(removed.contains i)))
    else e)

/-- The legacy (unencrypted) part of `messageListener`: decode the varint
type tag, then either run the sync protocol (replying to the sender when
the reply encoder holds more than the type tag, after the update handler
broadcast any update notifications to all connections), or apply an
awareness update (attributing changed client IDs to the sender and
broadcasting the encoded delta to all connections).  An unrecognized tag
is dropped; a decoding failure is the caught exception path and leaves
the session untouched. -/
def legacyListener (P : DocCapability) (conn : Conn) (doc : WSDoc) (message : Bytes) :
    ListenResult :=
  match readVarUint message with
  | none => ⟨doc, [], []⟩
  | some (t, payload) =>
    if t = messageSync then
      match readVarUint payload with
      | none => ⟨doc, [], []⟩
      | some _ =>
        let oc := P.readSyncMessage doc.yState payload
        let d1 := { doc with yState := oc.yState }
        let rb := broadcastUpdates P d1 oc.updates
        let replyFrame := writeVarUint messageSync ++ oc.reply
        if 1 < replyFrame.length then
          let rs := send P rb.1 conn replyFrame
          ⟨rs.1, rb.2 ++ rs.2, []⟩
        else ⟨rb.1, rb.2, []⟩
    else if t = messageAwareness then
      match readVarUint8Array payload with
      | none => ⟨doc, [], []⟩
      | some (buf, _) =>
        let oc := P.applyAwarenessUpdate doc.awStates buf
        let changed := oc.added ++ oc.updated ++ oc.removed
        let d1 := { doc with
          awStates := oc.states,
          conns := updateControlled doc.conns conn oc.added oc.removed }
        let frame := writeVarUint messageAwareness ++
          writeVarUint8Array (P.encodeAwarenessUpdate d1.awStates changed)
        let r := broadcastAll P d1 frame
        ⟨r.1, r.2, []⟩
    else ⟨doc, [], []⟩

/-- `messageListener`: an encrypted frame (first byte 0x01/0x02/0x03)
latches the session to encrypted mode; an encrypted sync frame is stored
verbatim as the session's encrypted blob, a debounced save is scheduled
for the room, and the frame is relayed to every other connection; an
encrypted awareness frame is relayed to every other connection only.
Anything else goes through the legacy path. -/
def messageListener (P : DocCapability) (conn : Conn) (doc : WSDoc) (message : Bytes) :
    ListenResult :=
  if isEncryptedMessage message then
    let d1 := { doc with isEncrypted := true }
    if isEncryptedSyncMessage message then
      let d2 := { d1 with encryptedState := some message }
      let r := broadcastEncryptedMessage P d2 conn message
      ⟨r.1, r.2, [d2.name]⟩
    else
      let r := broadcastEncryptedMessage P d1 conn message
      ⟨r.1, r.2, []⟩
  else legacyListener P conn doc message

/-- `setupWSConnection`: on the first connection of a room with no cached
encrypted blob, the persisted state (if any) is restored and latches the
room to encrypted mode; the connection is then registered with an empty
controlled set.  An encrypted room replays the cached blob to the new
connection and skips legacy sync; a legacy room gets sync step 1 and,
when awareness states exist, an awareness snapshot.  `persisted` is the
outcome of the awaited `loadState` call (`none` covers both the absent
state and the caught load failure). -/
def setupWSConnection (P : DocCapability) (conn : Conn) (doc : WSDoc)
    (persisted : Option Bytes) : WSDoc × List (Nat × Bytes) :=
  let d0 : WSDoc :=
    if doc.conns.isEmpty && doc.encryptedState.isNone then
      match persisted with
      | some st => { doc with encryptedState := some st, isEncrypted := true }
      | none => doc
    else doc
  let d1 := { d0 with
    conns := d0.conns.filter (fun e : Conn × List Nat => e.1 != conn) ++ [(conn, [])] }
  match d1.isEncrypted, d1.encryptedState with
  | true, some blob => send P d1 conn blob
  | _, _ =>
    let step1 := writeVarUint messageSync ++ writeVarUint 0 ++
      writeVarUint8Array (P.encodeStateVector d1.yState)
    let r1 := send P d1 conn step1
    if r1.1.awStates.isEmpty then r1
    else
      let frame := writeVarUint messageAwareness ++
        writeVarUint8Array
          (P.encodeAwarenessUpdate r1.1.awStates (r1.1.awStates.map Prod.fst))
      let r2 := send P r1.1 conn frame
      (r2.1, r1.2 ++ r2.2)

/-- The connection-close handler at the registry level: the room's session
is updated through `closeConn`; no session is ever removed from the
registry. -/
def handleConnClose (P : DocCapability) (registry : List (String × WSDoc))
    (name : String) (conn : Conn) : List (String × WSDoc) :=
  registry.map (fun e => if e.1 == name then (e.1, (closeConn P e.2 conn).1) else e)

/-- `getDocsForPersistence`: the rooms holding a cached encrypted blob,
each paired with a getter reading that blob (an absent blob reads as the
empty byte string). -/
def getDocsForPersistence (registry : List (String × WSDoc)) :
    List (String × (Nat → Bytes)) :=
  (registry.filter (fun e => e.2.encryptedState.isSome)).map
    (fun e => (e.1, fun _ => e.2.encryptedState.getD []))

/-- The operations a room session undergoes over its lifetime, as far as
they touch the session record: handling an inbound frame, closing a
connection (explicitly or through dead-transport pruning), and a new
connection joining (with the optional persisted state the setup path
loaded for a first connection). -/
inductive SessionOp where
  | message (conn : Conn) (m : Bytes)
  | connClose (conn : Conn)
  | connect (conn : Conn) (persisted : Option Bytes)

/-- Effect of one session operation on the session record. -/
def applySessionOp (P : DocCapability) (op : SessionOp) (d : WSDoc) : WSDoc :=
  match op with
  | .message c m => (messageListener P c d m).doc
  | .connClose c => (closeConn P d c).1
  | .connect c st => (setupWSConnection P c d st).1

/-- Effect of a sequence of session operations, oldest first. -/
def applySessionOps (P : DocCapability) (ops : List SessionOp) (d : WSDoc) : WSDoc :=
  match ops with
  | [] => d
  | op :: rest => applySessionOps P rest (applySessionOp P op d)

/-! ### Persistence module (persistence.ts) -/

/-- The environment variables the persistence module reads.  A JS
environment variable is either unset or a string; the code's truthiness
checks treat the empty string like an unset variable. -/
structure R2Env where
  cloudflareAccountId : Option String
  r2AccessKeyId : Option String
  r2SecretAccessKey : Option String
  r2BucketName : Option String

/-- The credentials of a constructed S3 client. -/
structure S3Config where
  accountId : String
  accessKeyId : String
  secretAccessKey : String
deriving DecidableEq

/-- JS truthiness of an optional environment string: set and non-empty. -/
def envString (v : Option String) : Option String :=
  match v with
  | none => none
  | some s => if s = "" then none else some s

/-- `getS3Client`: `null` (here `none`) when any of the three credentials
is missing, otherwise a client for the account's R2 endpoint. -/
def getS3Client (env : R2Env) : Option S3Config :=
  match envString env.cloudflareAccountId, envString env.r2AccessKeyId,
      envString env.r2SecretAccessKey with
  | some a, some k, some s => some ⟨a, k, s⟩
  | _, _, _ => none

/-- `BUCKET_NAME`: the configured bucket or the default `"write"`. -/
def BUCKET_NAME (env : R2Env) : String :=
  (envString env.r2BucketName).getD "write"

/-- `getStateKey`: the room id `bookId:chapterId` is split on `":"` and
laid out as `collab/bookId/chapterId/state.yjs` (a missing part renders
as JS `undefined`). -/
def getStateKey (roomId : String) : String :=
  let parts := roomId.splitOn ":"
  let bookId := (parts.get? 0).getD "undefined"
  let chapterId := (parts.get? 1).getD "undefined"
  "collab/" ++ bookId ++ "/" ++ chapterId ++ "/state.yjs"

/-- The requests the module can issue against the object store. -/
inductive StorageOp where
  | putObject (bucket key : String) (body : Bytes)
  | getObject (bucket key : String)
  | deleteObject (bucket key : String)
deriving DecidableEq

/-- `persistState`: no-op without a configured client, otherwise one
`PutObjectCommand` with the room's key and the given body (a failed put
is caught and logged, so no error escapes either way). -/
def persistState (env : R2Env) (roomId : String) (state : Bytes) : List StorageOp :=
  match getS3Client env with
  | none => []
  | some _ => [.putObject (BUCKET_NAME env) (getStateKey roomId) state]

/-- `loadState`: no-op returning `none` without a configured client,
otherwise one `GetObjectCommand`; the body found under the room's key is
returned, and both the missing-key case and any other failure fall
through to `none`.  `store` is the object store's current contents,
keyed by object key. -/
def loadState (env : R2Env) (roomId : String) (store : String → Option Bytes) :
    List StorageOp × Option Bytes :=
  match getS3Client env with
  | none => ([], none)
  | some _ =>
    ([.getObject (BUCKET_NAME env) (getStateKey roomId)], store (getStateKey roomId))

/-- `deleteState`: no-op without a configured client, otherwise one
`DeleteObjectCommand` for the room's key. -/
def deleteState (env : R2Env) (roomId : String) : List StorageOp :=
  match getS3Client env with
  | none => []
  | some _ => [.deleteObject (BUCKET_NAME env) (getStateKey roomId)]

/-! ### Debounce scheduler (persistence.ts, `saveTimers`) -/

/-- `SAVE_DEBOUNCE_MS = 2000`. -/
def SAVE_DEBOUNCE_MS : Nat := 2000

/-- An armed `setTimeout` created by `scheduleSave`: the room it will
save, the identity of the timeout object, the time at which it expires,
and the snapshot getter it closed over.  A getter is a function of the
global time at which it is evaluated, capturing that the code's getters
read the room's state as of the evaluation moment. -/
structure ArmedTimer where
  room : String
  gid : Nat
  fireAt : Nat
  getState : Nat → Bytes

/-- Lookup in the `saveTimers` map (room id to timeout identity). -/
def mapGet (k : String) (m : List (String × Nat)) : Option Nat :=
  (m.find? (fun e => e.1 == k)).map Prod.snd

/-- `saveTimers.delete`. -/
def mapDelete (k : String) (m : List (String × Nat)) : List (String × Nat) :=
  m.filter (fun e => e.1 != k)

/-- `saveTimers.set` (replaces any entry under the same key; the JS map
updates in place, and no property here depends on entry order). -/
def mapSet (k : String) (v : Nat) (m : List (String × Nat)) : List (String × Nat) :=
  mapDelete k m ++ [(k, v)]

/-- The scheduler's world: the armed (neither cleared nor fired) timeout
objects, the `saveTimers` map, a fresh-identity counter, and the log of
`persistState` invocations issued so far, in order. -/
structure SchedulerState where
  armed : List ArmedTimer
  saveTimers : List (String × Nat)
  nextGid : Nat
  persistCalls : List (String × Bytes)

/-- `scheduleSave` at time `now`: clear the timeout currently recorded
for the room (if any), arm a fresh timeout expiring one debounce window
later, and record it in `saveTimers`. -/
def scheduleSave (now : Nat) (roomId : String) (getState : Nat → Bytes)
    (s : SchedulerState) : SchedulerState :=
  let cleared :=
    match mapGet roomId s.saveTimers with
    | some gid => s.armed.filter (fun t => t.gid != gid)
    | none => s.armed
  { armed := cleared ++ [⟨roomId, s.nextGid, now + SAVE_DEBOUNCE_MS, getState⟩],
    saveTimers := mapSet roomId s.nextGid s.saveTimers,
    nextGid := s.nextGid + 1,
    persistCalls := s.persistCalls }

/-- A timeout firing at time `now`: only an armed timeout whose deadline
has passed runs; its callback removes the room's `saveTimers` entry,
evaluates the getter, and issues a `persistState` call unless the
snapshot is empty. -/
def fireTimer (now : Nat) (gid : Nat) (s : SchedulerState) : SchedulerState :=
  match s.armed.find? (fun t => t.gid == gid && decide (t.fireAt ≤ now)) with
  | none => s
  | some t =>
    { armed := s.armed.filter (fun u => u.gid != gid),
      saveTimers := mapDelete t.room s.saveTimers,
      nextGid := s.nextGid,
      persistCalls := s.persistCalls ++
        (if (t.getState now).length ≠ 0 then [(t.room, t.getState now)] else []) }

/-- `cancelPendingSave`: clear the timeout recorded for the room, if any,
and drop its map entry. -/
def cancelPendingSave (roomId : String) (s : SchedulerState) : SchedulerState :=
  match mapGet roomId s.saveTimers with
  | some gid =>
    { s with
      armed := s.armed.filter (fun t => t.gid != gid),
      saveTimers := mapDelete roomId s.saveTimers }
  | none => s

/-- `forceSave` at time `now`: cancel the pending save, evaluate the
getter now, and issue a `persistState` call unless the snapshot is
empty. -/
def forceSave (now : Nat) (roomId : String) (getState : Nat → Bytes)
    (s : SchedulerState) : SchedulerState :=
  let s1 := cancelPendingSave roomId s
  if (getState now).length ≠ 0 then
    { s1 with persistCalls := s1.persistCalls ++ [(roomId, getState now)] }
  else s1

/-- `saveAllPending` at time `now`: for every entry of the given room map,
cancel its pending save and issue a `persistState` call with the getter's
current snapshot (the source performs no emptiness check here); all the
writes are awaited together. -/
def saveAllPending (now : Nat) (docsMap : List (String × (Nat → Bytes)))
    (s : SchedulerState) : SchedulerState :=
  match docsMap with
  | [] => s
  | e :: rest =>
    let s1 := cancelPendingSave e.1 s
    saveAllPending now rest
      { s1 with persistCalls := s1.persistCalls ++ [(e.1, e.2 now)] }

/-- The scheduler before any call: nothing armed, nothing mapped, nothing
written. -/
def initialScheduler : SchedulerState :=
  { armed := [], saveTimers := [], nextGid := 0, persistCalls := [] }

/-- A burst of `scheduleSave` calls for one room: each element carries
the call's time and its getter, oldest first. -/
def runBurst (roomId : String) (s : SchedulerState)
    (calls : List (Nat × (Nat → Bytes))) : SchedulerState :=
  match calls with
  | [] => s
  | c :: cs => runBurst roomId (scheduleSave c.1 roomId c.2 s) cs

/-- The storage requests a list of `persistState` invocations turns into
under a given environment. -/
def storageOpsOfCalls (env : R2Env) (calls : List (String × Bytes)) : List StorageOp :=
  calls.flatMap (fun c => persistState env c.1 c.2)

/-! ### Server entrypoint shutdown handler -/

/-- The actions the server entrypoint can take while shutting down. -/
inductive ShutdownStep where
  | closeWebSocketServer
  | closeHttpServer
  | exitProcess
  | persistWrite (roomId : String) (state : Bytes)
deriving DecidableEq

/-- The SIGTERM handler of the server entrypoint: close the WebSocket
server, close the HTTP server, exit.  It is the complete shutdown path of
the process. -/
def sigtermHandlerSteps : List ShutdownStep :=
  [.closeWebSocketServer, .closeHttpServer, .exitProcess]

/-! ### Concrete capabilities and rooms used to evaluate the model -/

/-- A degenerate document capability: applying a payload changes nothing
and emits nothing. -/
def constCapability : DocCapability where
  readSyncMessage := fun y _ => ⟨y, [], []⟩
  applyAwarenessUpdate := fun s _ => ⟨s, [], [], []⟩
  encodeAwarenessUpdate := fun _ _ => []
  encodeStateVector := fun _ => []

/-- A concrete document capability that mutates: applying a sync payload
appends it to the committed state and emits one update notification
carrying the payload. -/
def appendCapability : DocCapability where
  readSyncMessage := fun y p => ⟨y ++ p, [], [p]⟩
  applyAwarenessUpdate := fun s _ => ⟨s, [], [], []⟩
  encodeAwarenessUpdate := fun _ _ => []
  encodeStateVector := fun _ => []

/-- A legacy-mode room with two open connections. -/
def roomTwoConns : WSDoc :=
  { name := "book1:ch2", conns := [(⟨1, 1⟩, []), (⟨2, 1⟩, [])], yState := [],
    awStates := [], encryptedState := none, isEncrypted := false }

/-- A room already latched to encrypted mode, with two open
connections. -/
def latchedRoom : WSDoc :=
  { name := "book1:ch2", conns := [(⟨1, 1⟩, []), (⟨2, 1⟩, [])], yState := [],
    awStates := [], encryptedState := some [1, 5], isEncrypted := true }

/-! ### Unfolding and preservation lemmas for the close cascade -/

/-- Unfolding `closeConnF` at positive fuel. -/
theorem closeConnF_succ (P : DocCapability) (fuel : Nat) (doc : WSDoc) (conn : Conn) :
    closeConnF P (fuel + 1) doc conn =
      (if doc.conns.any (fun e => e.1 == conn) then
        let controlled := (doc.conns.find? (fun e => e.1 == conn)).elim [] Prod.snd
        let d1 : WSDoc := { doc with conns := doc.conns.filter (fun e => e.1 != conn) }
        let removed := controlled.filter (fun i => d1.awStates.any (fun a => a.1 == i))
        let d2 : WSDoc :=
          { d1 with awStates := d1.awStates.filter (fun a => !(controlled.contains a.1)) }
        if removed.isEmpty then (d2, [])
        else
          let frame := writeVarUint messageAwareness ++
            writeVarUint8Array (P.encodeAwarenessUpdate d2.awStates removed)
          sendAllWith (fun d c => closeConnF P fuel d c) d2 (d2.conns.map Prod.fst) frame
      else (doc, [])) := rfl

/-- A dead transport routes `sendWith` straight to the close function. -/
theorem sendWith_dead (close : WSDoc → Conn → WSDoc × List (Nat × Bytes))
    (d : WSDoc) (c : Conn) (m : Bytes)
    (h0 : c.readyState ≠ wsReadyStateConnecting) (h1 : c.readyState ≠ wsReadyStateOpen) :
    sendWith close d c m = close d c := by
  have h0n : ¬ c.readyState = 0 := by simpa [wsReadyStateConnecting] using h0
  have h1n : ¬ c.readyState = 1 := by simpa [wsReadyStateOpen] using h1
  simp [sendWith, wsReadyStateConnecting, wsReadyStateOpen, h0n, h1n]

/-- A live transport delivers the frame and leaves the session alone,
whatever the close function. -/
theorem sendWith_of_open (close : WSDoc → Conn → WSDoc × List (Nat × Bytes))
    (d : WSDoc) (c : Conn) (m : Bytes)
    (h : c.readyState = wsReadyStateConnecting ∨ c.readyState = wsReadyStateOpen) :
    sendWith close d c m = (d, [(c.id, m)]) := by
  rcases h with h | h <;>
    simp [sendWith, h, wsReadyStateConnecting, wsReadyStateOpen]

theorem sendAllWith_of_open (close : WSDoc → Conn → WSDoc × List (Nat × Bytes))
    (ts : List Conn) (d : WSDoc) (m : Bytes)
    (h : ∀ c ∈ ts, c.readyState = wsReadyStateConnecting ∨ c.readyState = wsReadyStateOpen) :
    sendAllWith close d ts m = (d, ts.map (fun c => (c.id, m))) := by
  induction ts generalizing d with
  | nil => rfl
  | cons c cs ih =>
    have hc := sendWith_of_open close d c m (h c (by simp))
    have hrest := ih d (fun x hx => h x (by simp [hx]))
    simp [sendAllWith, hc, hrest]

/-! ### Field-preservation lemmas for the fan-out functions -/

theorem sendWith_fields_of (close : WSDoc → Conn → WSDoc × List (Nat × Bytes))
    (hc : ∀ (d : WSDoc) (c : Conn),
      (close d c).1.name = d.name ∧ (close d c).1.yState = d.yState ∧
      (close d c).1.encryptedState = d.encryptedState ∧
      (close d c).1.isEncrypted = d.isEncrypted)
    (d : WSDoc) (c : Conn) (m : Bytes) :
    (sendWith close d c m).1.name = d.name ∧
    (sendWith close d c m).1.yState = d.yState ∧
    (sendWith close d c m).1.encryptedState = d.encryptedState ∧
    (sendWith close d c m).1.isEncrypted = d.isEncrypted := by
  unfold sendWith
  split <;> split <;> first
    | exact hc d c
    | exact ⟨rfl, rfl, rfl, rfl⟩

theorem sendAllWith_fields_of (close : WSDoc → Conn → WSDoc × List (Nat × Bytes))
    (hc : ∀ (d : WSDoc) (c : Conn),
      (close d c).1.name = d.name ∧ (close d c).1.yState = d.yState ∧
      (close d c).1.encryptedState = d.encryptedState ∧
      (close d c).1.isEncrypted = d.isEncrypted)
    (ts : List Conn) (d : WSDoc) (m : Bytes) :
    (sendAllWith close d ts m).1.name = d.name ∧
    (sendAllWith close d ts m).1.yState = d.yState ∧
    (sendAllWith close d ts m).1.encryptedState = d.encryptedState ∧
    (sendAllWith close d ts m).1.isEncrypted = d.isEncrypted := by
  induction ts generalizing d with
  | nil => exact ⟨rfl, rfl, rfl, rfl⟩
  | cons c cs ih =>
    have h1 := sendWith_fields_of close hc d c m
    have h2 := ih (sendWith close d c m).1
    simp only [sendAllWith]
    exact ⟨h2.1.trans h1.1, h2.2.1.trans h1.2.1, h2.2.2.1.trans h1.2.2.1,
      h2.2.2.2.trans h1.2.2.2⟩

theorem closeConnF_fields (P : DocCapability) :
    ∀ (fuel : Nat) (d : WSDoc) (c : Conn),
      (closeConnF P fuel d c).1.name = d.name ∧
      (closeConnF P fuel d c).1.yState = d.yState ∧
      (closeConnF P fuel d c).1.encryptedState = d.encryptedState ∧
      (closeConnF P fuel d c).1.isEncrypted = d.isEncrypted := by
  intro fuel
  induction fuel with
  | zero => intro d c; exact ⟨rfl, rfl, rfl, rfl⟩
  | succ fuel ih =>
    intro d c
    rw [closeConnF_succ]
    refine ⟨?_, ?_, ?_, ?_⟩
    · split
      · dsimp only
        split
        · rfl
        · exact (sendAllWith_fields_of _ ih _ _ _).1
      · rfl
    · split
      · dsimp only
        split
        · rfl
        · exact (sendAllWith_fields_of _ ih _ _ _).2.1
      · rfl
    · split
      · dsimp only
        split
        · rfl
        · exact (sendAllWith_fields_of _ ih _ _ _).2.2.1
      · rfl
    · split
      · dsimp only
        split
        · rfl
        · exact (sendAllWith_fields_of _ ih _ _ _).2.2.2
      · rfl

theorem closeConn_fields (P : DocCapability) (d : WSDoc) (c : Conn) :
    (closeConn P d c).1.name = d.name ∧ (closeConn P d c).1.yState = d.yState ∧
    (closeConn P d c).1.encryptedState = d.encryptedState ∧
    (closeConn P d c).1.isEncrypted = d.isEncrypted :=
  closeConnF_fields P (d.conns.length + 1) d c

theorem send_fields (P : DocCapability) (d : WSDoc) (c : Conn) (m : Bytes) :
    (send P d c m).1.name = d.name ∧ (send P d c m).1.yState = d.yState ∧
    (send P d c m).1.encryptedState = d.encryptedState ∧
    (send P d c m).1.isEncrypted = d.isEncrypted :=
  sendWith_fields_of (closeConn P) (fun d c => closeConn_fields P d c) d c m

theorem sendAll_fields (P : DocCapability) (ts : List Conn) (d : WSDoc) (m : Bytes) :
    (sendAll P d ts m).1.name = d.name ∧ (sendAll P d ts m).1.yState = d.yState ∧
    (sendAll P d ts m).1.encryptedState = d.encryptedState ∧
    (sendAll P d ts m).1.isEncrypted = d.isEncrypted :=
  sendAllWith_fields_of (closeConn P) (fun d c => closeConn_fields P d c) ts d m

theorem broadcastUpdates_fields (P : DocCapability) (us : List Bytes) (d : WSDoc) :
    (broadcastUpdates P d us).1.name = d.name ∧
    (broadcastUpdates P d us).1.yState = d.yState ∧
    (broadcastUpdates P d us).1.encryptedState = d.encryptedState ∧
    (broadcastUpdates P d us).1.isEncrypted = d.isEncrypted := by
  induction us generalizing d with
  | nil => exact ⟨rfl, rfl, rfl, rfl⟩
  | cons u rest ih =>
    have h1 := sendAll_fields P (d.conns.map Prod.fst) d (encodeSyncUpdateFrame u)
    have h2 := ih (broadcastAll P d (encodeSyncUpdateFrame u)).1
    simp only [broadcastUpdates, broadcastAll] at h2 ⊢
    exact ⟨h2.1.trans h1.1, h2.2.1.trans h1.2.1, h2.2.2.1.trans h1.2.2.1,
      h2.2.2.2.trans h1.2.2.2⟩

theorem send_of_open (P : DocCapability) (d : WSDoc) (c : Conn) (m : Bytes)
    (h : c.readyState = wsReadyStateConnecting ∨ c.readyState = wsReadyStateOpen) :
    send P d c m = (d, [(c.id, m)]) :=
  sendWith_of_open (closeConn P) d c m h

theorem sendAll_of_open (P : DocCapability) (ts : List Conn) (d : WSDoc) (m : Bytes)
    (h : ∀ c ∈ ts, c.readyState = wsReadyStateConnecting ∨ c.readyState = wsReadyStateOpen) :
    sendAll P d ts m = (d, ts.map (fun c => (c.id, m))) :=
  sendAllWith_of_open (closeConn P) ts d m h

theorem broadcastUpdates_of_open (P : DocCapability) (us : List Bytes) (d : WSDoc)
    (h : ∀ e ∈ d.conns, e.1.readyState = wsReadyStateConnecting ∨
      e.1.readyState = wsReadyStateOpen) :
    broadcastUpdates P d us =
      (d, us.flatMap (fun u => d.conns.map (fun e => (e.1.id, encodeSyncUpdateFrame u)))) := by
  induction us with
  | nil => simp [broadcastUpdates]
  | cons u rest ih =>
    have hball : broadcastAll P d (encodeSyncUpdateFrame u) =
        (d, (d.conns.map Prod.fst).map (fun c => (c.id, encodeSyncUpdateFrame u))) := by
      exact sendAll_of_open P _ d _ (by
        intro c hc
        rcases List.mem_map.mp hc with ⟨e, he, rfl⟩
        exact h e he)
    simp [broadcastUpdates, hball, ih, List.map_map, Function.comp]

/-! ### C1 — shutdown persistence -/

/-- C1: the claim says the termination-signal path writes every room with
non-empty persistable state before the process exits.  The SIGTERM
handler of the server entrypoint performs no persistence action at all:
it closes the WebSocket server, closes the HTTP server and exits, and
never invokes `saveAllPending` (which, had it been called on a room map,
would have issued the writes, as the second conjunct shows on the room
`book1:ch2` holding a non-empty blob). -/
theorem sigterm_shutdown_writes_nothing :
    (∀ r st, ShutdownStep.persistWrite r st ∉ sigtermHandlerSteps) ∧
    (saveAllPending 0 [("book1:ch2", fun _ => [1, 2, 3])] initialScheduler).persistCalls
      = [("book1:ch2", [1, 2, 3])] := by
  constructor
  · intro r st h
    simp [sigtermHandlerSteps] at h
  · rfl

/-! ### C9 — persistence disabled without credentials -/

/-- C9: with the object-store credentials unconfigured (`getS3Client`
returns `none`), `persistState`, `loadState` and `deleteState` perform no
storage request and report no error, `loadState` returns absent, and a
`forceSave` issues no storage request either: the relay runs with
persistence silently disabled. -/
theorem persistence_disabled_without_credentials (env : R2Env)
    (h : getS3Client env = none) :
    (∀ r st, persistState env r st = []) ∧
    (∀ r store, loadState env r store = ([], none)) ∧
    (∀ r, deleteState env r = []) ∧
    (∀ now r g s, storageOpsOfCalls env ((forceSave now r g s).persistCalls) = []) := by
  refine ⟨fun r st => ?_, fun r store => ?_, fun r => ?_, fun now r g s => ?_⟩
  · simp [persistState, h]
  · simp [loadState, h]
  · simp [deleteState, h]
  · simp [storageOpsOfCalls, persistState, h]

/-- Witness for C9 at a fully unset environment. -/
theorem persistence_disabled_without_credentials_witness :
    persistState ⟨none, none, none, none⟩ "book1:ch2" [1] = [] ∧
    loadState ⟨none, none, none, none⟩ "book1:ch2" (fun _ => none) = ([], none) ∧
    deleteState ⟨none, none, none, none⟩ "book1:ch2" = [] ∧
    storageOpsOfCalls ⟨none, none, none, none⟩
      ((forceSave 0 "book1:ch2" (fun _ => [1]) initialScheduler).persistCalls) = [] := by
  have h := persistence_disabled_without_credentials ⟨none, none, none, none⟩ rfl
  exact ⟨h.1 _ _, h.2.1 _ _, h.2.2.1 _, h.2.2.2 _ _ _ _⟩

/-! ### C4 — encrypted sync frames -/

/-- C4: an inbound frame whose first byte is 0x01 or 0x03 is stored
byte-for-byte as the session's encrypted blob (replacing any prior
value), a debounced persistence save is scheduled for the room, and the
frame is sent unchanged to every other connection currently in the room
and never back to the sender. -/
theorem encrypted_sync_frame_effects (P : DocCapability) (conn : Conn) (doc : WSDoc)
    (message : Bytes)
    (hb : message.head? = some ENCRYPTED_SYNC_VERSION ∨
      message.head? = some ENCRYPTED_SYNC_COMPRESSED_VERSION)
    (hopen : ∀ e ∈ doc.conns, e.1.readyState = wsReadyStateConnecting ∨
      e.1.readyState = wsReadyStateOpen)
    (hids : (doc.conns.map (fun e => e.1.id)).Nodup)
    (hmem : conn ∈ doc.conns.map Prod.fst) :
    (messageListener P conn doc message).doc =
      { doc with isEncrypted := true, encryptedState := some message } ∧
    (messageListener P conn doc message).saves = [doc.name] ∧
    (messageListener P conn doc message).sends =
      ((doc.conns.map Prod.fst).filter (fun c => c != conn)).map
        (fun c => (c.id, message)) ∧
    ∀ p ∈ (messageListener P conn doc message).sends, p.1 ≠ conn.id := by
  obtain ⟨b, rest, rfl⟩ : ∃ b rest, message = b :: rest := by
    cases message with
    | nil => simp at hb
    | cons b rest => exact ⟨b, rest, rfl⟩
  have hb1 : b = 1 ∨ b = 3 := by
    rcases hb with h | h <;> simp [ENCRYPTED_SYNC_VERSION, ENCRYPTED_SYNC_COMPRESSED_VERSION] at h <;>
      [exact Or.inl h; exact Or.inr h]
  have hEnc : isEncryptedMessage (b :: rest) = true := by
    rcases hb1 with rfl | rfl <;> rfl
  have hSync : isEncryptedSyncMessage (b :: rest) = true := by
    rcases hb1 with rfl | rfl <;> rfl
  have hopen2 : ∀ c ∈ (doc.conns.map Prod.fst).filter (fun c => c != conn),
      c.readyState = wsReadyStateConnecting ∨ c.readyState = wsReadyStateOpen := by
    intro c hc
    rcases List.mem_map.mp (List.mem_of_mem_filter hc) with ⟨e, he, rfl⟩
    exact hopen e he
  have hml : messageListener P conn doc (b :: rest) =
      ⟨{ doc with isEncrypted := true, encryptedState := some (b :: rest) },
        ((doc.conns.map Prod.fst).filter (fun c => c != conn)).map
          (fun c => (c.id, b :: rest)), [doc.name]⟩ := by
    have hsa := sendAll_of_open P
      ((doc.conns.map Prod.fst).filter (fun c => c != conn))
      { doc with isEncrypted := true, encryptedState := some (b :: rest) }
      (b :: rest) hopen2
    simp [messageListener, hEnc, hSync, broadcastEncryptedMessage, hsa]
  refine ⟨by rw [hml], by rw [hml], by rw [hml], ?_⟩
  rw [hml]
  intro p hp
  rcases List.mem_map.mp hp with ⟨c, hc, rfl⟩
  have hcne : c ≠ conn := by
    have := List.of_mem_filter hc
    simpa using this
  have hcmem : c ∈ doc.conns.map Prod.fst := List.mem_of_mem_filter hc
  rcases List.mem_map.mp hcmem with ⟨e, he, rfl⟩
  rcases List.mem_map.mp hmem with ⟨e0, he0, rfl⟩
  intro hid
  exact hcne (congrArg Prod.fst
    (List.inj_on_of_nodup_map hids he he0 hid))

/-- Witness for C4: a `0x01` frame into a two-connection room is cached,
scheduled for saving, and relayed only to the other connection. -/
theorem encrypted_sync_frame_effects_witness :
    (messageListener constCapability ⟨1, 1⟩ roomTwoConns [1, 7, 7]).doc =
      { roomTwoConns with isEncrypted := true, encryptedState := some [1, 7, 7] } ∧
    (messageListener constCapability ⟨1, 1⟩ roomTwoConns [1, 7, 7]).saves = ["book1:ch2"] ∧
    (messageListener constCapability ⟨1, 1⟩ roomTwoConns [1, 7, 7]).sends =
      ((roomTwoConns.conns.map Prod.fst).filter (fun c => c != ⟨1, 1⟩)).map
        (fun c => (c.id, [1, 7, 7])) ∧
    ∀ p ∈ (messageListener constCapability ⟨1, 1⟩ roomTwoConns [1, 7, 7]).sends,
      p.1 ≠ (1 : Nat) := by
  have h := encrypted_sync_frame_effects constCapability ⟨1, 1⟩ roomTwoConns [1, 7, 7]
    (by decide) (by decide) (by decide) (by decide)
  exact ⟨h.1, by rw [h.2.1]; rfl, h.2.2.1, h.2.2.2⟩

/-! ### The legacy path never schedules a save and never touches the latch -/

theorem legacyListener_fields (P : DocCapability) (c : Conn) (d : WSDoc) (m : Bytes) :
    (legacyListener P c d m).doc.isEncrypted = d.isEncrypted ∧
    (legacyListener P c d m).doc.encryptedState = d.encryptedState ∧
    (legacyListener P c d m).doc.name = d.name ∧
    (legacyListener P c d m).saves = [] := by
  unfold legacyListener
  cases hrv : readVarUint m with
  | none => exact ⟨rfl, rfl, rfl, rfl⟩
  | some tp =>
    obtain ⟨t, payload⟩ := tp
    by_cases ht : t = messageSync
    · simp only [ht, if_pos rfl]
      cases hp : readVarUint payload with
      | none => exact ⟨rfl, rfl, rfl, rfl⟩
      | some q =>
        have hbu := broadcastUpdates_fields P (P.readSyncMessage d.yState payload).updates
          { d with yState := (P.readSyncMessage d.yState payload).yState }
        by_cases hlen : 1 < (writeVarUint messageSync ++
            (P.readSyncMessage d.yState payload).reply).length
        · have hs := send_fields P
            (broadcastUpdates P { d with yState := (P.readSyncMessage d.yState payload).yState }
              (P.readSyncMessage d.yState payload).updates).1 c
            (writeVarUint messageSync ++ (P.readSyncMessage d.yState payload).reply)
          simp only [if_pos hlen]
          exact ⟨hs.2.2.2.trans hbu.2.2.2, hs.2.2.1.trans hbu.2.2.1, hs.1.trans hbu.1, rfl⟩
        · simp only [if_neg hlen]
          exact ⟨hbu.2.2.2, hbu.2.2.1, hbu.1, rfl⟩
    · by_cases ha : t = messageAwareness
      · simp only [if_neg ht, ha, if_pos rfl]
        cases hv : readVarUint8Array payload with
        | none => exact ⟨rfl, rfl, rfl, rfl⟩
        | some bq =>
          obtain ⟨buf, rest⟩ := bq
          simp only [broadcastAll]
          exact ⟨(sendAll_fields _ _ _ _).2.2.2, (sendAll_fields _ _ _ _).2.2.1,
            (sendAll_fields _ _ _ _).1, rfl⟩
      · simp [if_neg ht, if_neg ha]

/-- Committed state after a well-formed legacy sync frame: the outcome of
handing the payload to the document capability. -/
theorem legacyListener_sync_yState (P : DocCapability) (c : Conn) (d : WSDoc)
    (m : Bytes) (t : Nat) (payload : Bytes)
    (hrv : readVarUint m = some (t, payload)) (ht : t = messageSync)
    (hp : readVarUint payload ≠ none) :
    (legacyListener P c d m).doc.yState = (P.readSyncMessage d.yState payload).yState := by
  unfold legacyListener
  rw [hrv]
  simp only [ht, if_pos rfl]
  cases hpk : readVarUint payload with
  | none => exact absurd hpk hp
  | some q =>
    have hbu := broadcastUpdates_fields P (P.readSyncMessage d.yState payload).updates
      { d with yState := (P.readSyncMessage d.yState payload).yState }
    by_cases hlen : 1 < (writeVarUint messageSync ++
        (P.readSyncMessage d.yState payload).reply).length
    · have hs := send_fields P
        (broadcastUpdates P { d with yState := (P.readSyncMessage d.yState payload).yState }
          (P.readSyncMessage d.yState payload).updates).1 c
        (writeVarUint messageSync ++ (P.readSyncMessage d.yState payload).reply)
      simp only [if_pos hlen]
      exact hs.2.1.trans hbu.2.1
    · simp only [if_neg hlen]
      exact hbu.2.1

/-! ### C2 — legacy sync mutation: broadcast yes, debounced save no -/

/-- Counterexample for C2 as stated: a legacy sync frame whose
application mutates the committed state (the notes map gains an entry
under `appendCapability`) is broadcast to both connections, including the
sender, but NO debounced persistence save is scheduled — the save list of
the handled frame is empty, while the claim requires a scheduled save. -/
theorem legacy_mutation_schedules_no_save_cex :
    (messageListener appendCapability ⟨1, 1⟩ roomTwoConns [0, 2, 9]).doc.yState = [2, 9] ∧
    roomTwoConns.yState = [] ∧
    (messageListener appendCapability ⟨1, 1⟩ roomTwoConns [0, 2, 9]).sends =
      [(1, [0, 2, 2, 2, 9]), (2, [0, 2, 2, 2, 9])] ∧
    (messageListener appendCapability ⟨1, 1⟩ roomTwoConns [0, 2, 9]).saves = [] := by
  decide

/-- C2 (amended): a legacy sync frame that mutates the committed state
triggers the document capability's update notifications, which are
broadcast to every connection of the room including the sender, and a
reply is sent to the sender when the protocol produced one; however, no
debounced persistence save is scheduled — in this code base debounced
saves exist only for encrypted sync frames. -/
theorem legacy_sync_broadcast_without_save (P : DocCapability) (conn : Conn)
    (doc : WSDoc) (payload : Bytes)
    (hopen : ∀ e ∈ doc.conns, e.1.readyState = wsReadyStateConnecting ∨
      e.1.readyState = wsReadyStateOpen)
    (hconn : conn.readyState = wsReadyStateConnecting ∨ conn.readyState = wsReadyStateOpen)
    (hpeek : readVarUint payload ≠ none) :
    (messageListener P conn doc (0 :: payload)).saves = [] ∧
    (messageListener P conn doc (0 :: payload)).doc.yState =
      (P.readSyncMessage doc.yState payload).yState ∧
    (messageListener P conn doc (0 :: payload)).sends =
      ((P.readSyncMessage doc.yState payload).updates.flatMap (fun u =>
        doc.conns.map (fun e => (e.1.id, encodeSyncUpdateFrame u)))) ++
      (if 1 < (writeVarUint messageSync ++ (P.readSyncMessage doc.yState payload).reply).length
       then [(conn.id, writeVarUint messageSync ++ (P.readSyncMessage doc.yState payload).reply)]
       else []) := by
  have hleg : isEncryptedMessage (0 :: payload) = false := rfl
  have hml : messageListener P conn doc (0 :: payload) =
      legacyListener P conn doc (0 :: payload) := by
    simp [messageListener, hleg]
  have hrv : readVarUint (0 :: payload) = some (0, payload) := by
    simp [readVarUint]
  refine ⟨hml ▸ (legacyListener_fields P conn doc (0 :: payload)).2.2.2,
    hml ▸ legacyListener_sync_yState P conn doc (0 :: payload) 0 payload hrv rfl hpeek, ?_⟩
  rw [hml]
  unfold legacyListener
  rw [hrv]
  simp only [messageSync, if_pos rfl]
  cases hpk : readVarUint payload with
  | none => exact absurd hpk hpeek
  | some q =>
    have hbu := broadcastUpdates_of_open P (P.readSyncMessage doc.yState payload).updates
      { doc with yState := (P.readSyncMessage doc.yState payload).yState } hopen
    by_cases hlen : 1 < (writeVarUint messageSync ++
        (P.readSyncMessage doc.yState payload).reply).length
    · have hs := send_of_open P
        { doc with yState := (P.readSyncMessage doc.yState payload).yState } conn
        (writeVarUint messageSync ++ (P.readSyncMessage doc.yState payload).reply) hconn
      simp only [messageSync] at hlen hs ⊢
      rw [if_pos hlen, if_pos hlen]
      simp [hbu, hs]
    · simp only [messageSync] at hlen ⊢
      rw [if_neg hlen, if_neg hlen]
      simp [hbu]

/-- Witness for C2's amended statement on the concrete mutating room. -/
theorem legacy_sync_broadcast_without_save_witness :
    (messageListener appendCapability ⟨1, 1⟩ roomTwoConns [0, 2, 9]).saves = [] ∧
    (messageListener appendCapability ⟨1, 1⟩ roomTwoConns [0, 2, 9]).doc.yState =
      (appendCapability.readSyncMessage roomTwoConns.yState [2, 9]).yState ∧
    (messageListener appendCapability ⟨1, 1⟩ roomTwoConns [0, 2, 9]).sends =
      ((appendCapability.readSyncMessage roomTwoConns.yState [2, 9]).updates.flatMap (fun u =>
        roomTwoConns.conns.map (fun e => (e.1.id, encodeSyncUpdateFrame u)))) ++
      (if 1 < (writeVarUint messageSync ++
          (appendCapability.readSyncMessage roomTwoConns.yState [2, 9]).reply).length
       then [(1, writeVarUint messageSync ++
          (appendCapability.readSyncMessage roomTwoConns.yState [2, 9]).reply)]
       else []) :=
  legacy_sync_broadcast_without_save appendCapability ⟨1, 1⟩ roomTwoConns [2, 9]
    (by decide) (by decide) (by decide)

/-! ### C3 — legacy frames after the encrypted latch -/

/-- Counterexample for C3 as stated: in a room already latched to
encrypted mode, a legacy sync frame is NOT ignored — the listener routes
it through the legacy path and applies it to the stale legacy document
capability, whose committed state changes. -/
theorem latched_legacy_frame_applied_cex :
    latchedRoom.isEncrypted = true ∧
    latchedRoom.yState = [] ∧
    (messageListener appendCapability ⟨1, 1⟩ latchedRoom [0, 2, 9]).doc.yState = [2, 9] := by
  decide

/-- C3 (amended): in a room latched to encrypted mode, a subsequently
received legacy-framed message does not crash the session — an
undecodable frame is caught and leaves the session untouched — and the
latch is never reset; however, the frame is not ignored: it is handed to
the legacy path exactly as in legacy mode, and a well-formed legacy sync
frame is applied to the room's stale legacy document capability. -/
theorem latched_legacy_frame_handled_as_legacy (P : DocCapability) (conn : Conn)
    (doc : WSDoc) (m : Bytes)
    (henc : doc.isEncrypted = true)
    (hleg : isEncryptedMessage m = false) :
    messageListener P conn doc m = legacyListener P conn doc m ∧
    (messageListener P conn doc m).doc.isEncrypted = true ∧
    (readVarUint m = none → messageListener P conn doc m = ⟨doc, [], []⟩) ∧
    (∀ t payload, readVarUint m = some (t, payload) → t = messageSync →
      readVarUint payload ≠ none →
      (messageListener P conn doc m).doc.yState =
        (P.readSyncMessage doc.yState payload).yState) := by
  have hml : messageListener P conn doc m = legacyListener P conn doc m := by
    simp [messageListener, hleg]
  refine ⟨hml, ?_, ?_, ?_⟩
  · rw [hml, (legacyListener_fields P conn doc m).1, henc]
  · intro hnone
    rw [hml]
    unfold legacyListener
    rw [hnone]
  · intro t payload hrv ht hp
    rw [hml]
    exact legacyListener_sync_yState P conn doc m t payload hrv ht hp

/-- Witness for C3's amended statement on the latched room. -/
theorem latched_legacy_frame_handled_as_legacy_witness :
    messageListener appendCapability ⟨1, 1⟩ latchedRoom [0, 2, 9] =
      legacyListener appendCapability ⟨1, 1⟩ latchedRoom [0, 2, 9] ∧
    (messageListener appendCapability ⟨1, 1⟩ latchedRoom [0, 2, 9]).doc.isEncrypted = true ∧
    (readVarUint [0, 2, 9] = none →
      messageListener appendCapability ⟨1, 1⟩ latchedRoom [0, 2, 9] = ⟨latchedRoom, [], []⟩) ∧
    (∀ t payload, readVarUint [0, 2, 9] = some (t, payload) → t = messageSync →
      readVarUint payload ≠ none →
      (messageListener appendCapability ⟨1, 1⟩ latchedRoom [0, 2, 9]).doc.yState =
        (appendCapability.readSyncMessage latchedRoom.yState payload).yState) :=
  latched_legacy_frame_handled_as_legacy appendCapability ⟨1, 1⟩ latchedRoom [0, 2, 9]
    (by decide) (by decide)

/-! ### C7 — the encrypted latch is monotonic -/

theorem messageListener_isEncrypted_mono (P : DocCapability) (c : Conn) (d : WSDoc)
    (m : Bytes) (h : d.isEncrypted = true) :
    (messageListener P c d m).doc.isEncrypted = true := by
  unfold messageListener
  by_cases he : isEncryptedMessage m
  · rw [if_pos he]
    by_cases hs : isEncryptedSyncMessage m
    · rw [if_pos hs]
      simp only [broadcastEncryptedMessage]
      exact (sendAll_fields _ _ _ _).2.2.2
    · rw [if_neg hs]
      simp only [broadcastEncryptedMessage]
      exact (sendAll_fields _ _ _ _).2.2.2
  · rw [if_neg he]
    exact (legacyListener_fields P c d m).1.trans h

theorem setupWSConnection_isEncrypted_mono (P : DocCapability) (c : Conn) (d : WSDoc)
    (st : Option Bytes) (h : d.isEncrypted = true) :
    (setupWSConnection P c d st).1.isEncrypted = true := by
  unfold setupWSConnection
  by_cases hc : (d.conns.isEmpty && d.encryptedState.isNone) = true
  · simp only [hc, if_true]
    cases st with
    | some s => exact (send_fields _ _ _ _).2.2.2
    | none =>
      split
      · exact (send_fields _ _ _ _).2.2.2.trans h
      · split
        · exact (send_fields _ _ _ _).2.2.2.trans h
        · exact (send_fields _ _ _ _).2.2.2.trans ((send_fields _ _ _ _).2.2.2.trans h)
  · simp only [hc, if_false, Bool.false_eq_true]
    split
    · exact (send_fields _ _ _ _).2.2.2.trans h
    · split
      · exact (send_fields _ _ _ _).2.2.2.trans h
      · exact (send_fields _ _ _ _).2.2.2.trans ((send_fields _ _ _ _).2.2.2.trans h)

theorem applySessionOp_isEncrypted_mono (P : DocCapability) (op : SessionOp) (d : WSDoc)
    (h : d.isEncrypted = true) :
    (applySessionOp P op d).isEncrypted = true := by
  cases op with
  | message c m => exact messageListener_isEncrypted_mono P c d m h
  | connClose c => exact (closeConn_fields P d c).2.2.2.trans h
  | connect c st => exact setupWSConnection_isEncrypted_mono P c d st h

/-- C7: a session's encrypted latch is monotonic: once set (by the first
encrypted frame or by loading persisted encrypted state), no later
handled operation — frame handling, connection close, connection setup —
ever resets it. -/
theorem session_mode_monotonic (P : DocCapability) (ops : List SessionOp) (d : WSDoc)
    (h : d.isEncrypted = true) :
    (applySessionOps P ops d).isEncrypted = true := by
  induction ops generalizing d with
  | nil => exact h
  | cons op rest ih =>
    exact ih (applySessionOp P op d) (applySessionOp_isEncrypted_mono P op d h)

/-- Witness for C7: the latched room stays latched across a frame, a
close and a reconnect. -/
theorem session_mode_monotonic_witness :
    (applySessionOps constCapability
      [SessionOp.message ⟨1, 1⟩ [0, 2, 9], SessionOp.connClose ⟨2, 1⟩,
        SessionOp.connect ⟨3, 1⟩ none] latchedRoom).isEncrypted = true :=
  session_mode_monotonic constCapability _ latchedRoom (by decide)

/-! ### Association-list map lemmas for `saveTimers` -/

theorem find?_mapDelete_self (k : String) (m : List (String × Nat)) :
    (mapDelete k m).find? (fun e => e.1 == k) = none := by
  rw [List.find?_eq_none]
  intro e he
  have h2 := (List.mem_filter.mp he).2
  simpa using h2

theorem mapGet_mapDelete_self (k : String) (m : List (String × Nat)) :
    mapGet k (mapDelete k m) = none := by
  simp [mapGet, find?_mapDelete_self]

theorem find?_mapDelete_ne (k r : String) (m : List (String × Nat)) (h : r ≠ k) :
    (mapDelete k m).find? (fun e => e.1 == r) = m.find? (fun e => e.1 == r) := by
  induction m with
  | nil => rfl
  | cons e rest ih =>
    simp only [mapDelete] at ih ⊢
    rw [List.filter_cons]
    by_cases hek : e.1 = k
    · rw [if_neg (by simp [hek])]
      rw [List.find?_cons_of_neg _ (by
        simp only [beq_iff_eq]
        intro hr
        exact h (by rw [← hr, hek]))]
      exact ih
    · rw [if_pos (by simp [hek])]
      by_cases her : e.1 = r
      · rw [List.find?_cons_of_pos _ (by simp [her]),
          List.find?_cons_of_pos _ (by simp [her])]
      · rw [List.find?_cons_of_neg _ (by simp [her]),
          List.find?_cons_of_neg _ (by simp [her])]
        exact ih

theorem mapGet_mapDelete_ne (k r : String) (m : List (String × Nat)) (h : r ≠ k) :
    mapGet r (mapDelete k m) = mapGet r m := by
  simp [mapGet, find?_mapDelete_ne k r m h]

theorem mapGet_mapSet_self (k : String) (v : Nat) (m : List (String × Nat)) :
    mapGet k (mapSet k v m) = some v := by
  simp [mapGet, mapSet, List.find?_append, find?_mapDelete_self]

theorem mapGet_mapSet_ne (k r : String) (v : Nat) (m : List (String × Nat)) (h : r ≠ k) :
    mapGet r (mapSet k v m) = mapGet r m := by
  have hk : ((k, v).1 == r) = false := by
    simp
    exact fun hkr => h hkr.symm
  simp [mapGet, mapSet, List.find?_append, find?_mapDelete_ne k r m h, List.find?_cons, hk]

theorem mapSet_mapSet (k : String) (v1 v2 : Nat) (m : List (String × Nat)) :
    mapSet k v2 (mapSet k v1 m) = mapSet k v2 m := by
  simp [mapSet, mapDelete, List.filter_append, List.filter_filter]

theorem keysNodup_mapDelete (k : String) (m : List (String × Nat))
    (h : (m.map Prod.fst).Nodup) : ((mapDelete k m).map Prod.fst).Nodup :=
  ((List.filter_sublist m).map Prod.fst).nodup h

theorem keysNodup_mapSet (k : String) (v : Nat) (m : List (String × Nat))
    (h : (m.map Prod.fst).Nodup) : ((mapSet k v m).map Prod.fst).Nodup := by
  have hnotin : k ∉ (mapDelete k m).map Prod.fst := by
    intro hk
    rcases List.mem_map.mp hk with ⟨e, he, rfl⟩
    have h2 := (List.mem_filter.mp he).2
    simp at h2
  have hsplit : (mapSet k v m).map Prod.fst = (mapDelete k m).map Prod.fst ++ [k] := by
    simp [mapSet]
  rw [hsplit]
  refine (keysNodup_mapDelete k m h).append (List.nodup_singleton k) ?_
  intro x hx hxs
  rw [List.mem_singleton] at hxs
  subst hxs
  exact hnotin hx

/-! ### C10 — at most one pending timer per room -/

/-- The scheduler's integrity invariant: `saveTimers` has no duplicate
room keys, every armed timeout has a fresh identity below the counter,
every armed timeout is the one its room's `saveTimers` entry records, and
no two armed timeouts share an identity. -/
def SchedInv (s : SchedulerState) : Prop :=
  ((s.saveTimers.map Prod.fst).Nodup) ∧
  (∀ t ∈ s.armed, t.gid < s.nextGid) ∧
  (∀ t ∈ s.armed, mapGet t.room s.saveTimers = some t.gid) ∧
  ((s.armed.map ArmedTimer.gid).Nodup)

theorem schedInv_initial : SchedInv initialScheduler := by
  refine ⟨List.nodup_nil, ?_, ?_, List.nodup_nil⟩ <;> intro t ht <;> simp [initialScheduler] at ht

theorem nodupGid_append_singleton (l : List ArmedTimer) (t : ArmedTimer)
    (hl : (l.map ArmedTimer.gid).Nodup) (hn : ∀ u ∈ l, u.gid ≠ t.gid) :
    ((l ++ [t]).map ArmedTimer.gid).Nodup := by
  rw [List.map_append]
  refine hl.append (List.nodup_singleton _) ?_
  intro x hx hxs
  rw [List.map_singleton, List.mem_singleton] at hxs
  rcases List.mem_map.mp hx with ⟨u, hu, rfl⟩
  exact hn u hu hxs

theorem nodupGid_filter (l : List ArmedTimer) (p : ArmedTimer → Bool)
    (hl : (l.map ArmedTimer.gid).Nodup) : ((l.filter p).map ArmedTimer.gid).Nodup :=
  ((List.filter_sublist l).map ArmedTimer.gid).nodup hl

theorem schedInv_scheduleSave (s : SchedulerState) (now : Nat) (r : String)
    (g : Nat → Bytes) (h : SchedInv s) : SchedInv (scheduleSave now r g s) := by
  obtain ⟨hkeys, hlt, hcor, hgids⟩ := h
  unfold scheduleSave
  cases hm : mapGet r s.saveTimers with
  | some gid0 =>
    have hsub : ∀ t ∈ s.armed.filter (fun t => t.gid != gid0), t ∈ s.armed :=
      fun t ht => List.mem_of_mem_filter ht
    have hner : ∀ t ∈ s.armed.filter (fun t => t.gid != gid0), t.room ≠ r := by
      intro t ht hr
      have hne : t.gid ≠ gid0 := by simpa using (List.mem_filter.mp ht).2
      have := hcor t (hsub t ht)
      rw [hr, hm] at this
      exact hne (Option.some_injective _ this.symm)
    refine ⟨keysNodup_mapSet r s.nextGid s.saveTimers hkeys, ?_, ?_, ?_⟩
    · intro t ht
      rcases List.mem_append.mp ht with ht | ht
      · exact Nat.lt_succ_of_lt (hlt t (hsub t ht))
      · rw [List.mem_singleton] at ht
        subst ht
        exact Nat.lt_succ_self _
    · intro t ht
      rcases List.mem_append.mp ht with ht | ht
      · rw [mapGet_mapSet_ne r t.room s.nextGid s.saveTimers (hner t ht)]
        exact hcor t (hsub t ht)
      · rw [List.mem_singleton] at ht
        subst ht
        exact mapGet_mapSet_self r s.nextGid s.saveTimers
    · exact nodupGid_append_singleton _ _ (nodupGid_filter _ _ hgids)
        (fun u hu => Nat.ne_of_lt (hlt u (hsub u hu)))
  | none =>
    have hner : ∀ t ∈ s.armed, t.room ≠ r := by
      intro t ht hr
      have := hcor t ht
      rw [hr, hm] at this
      exact Option.noConfusion this
    refine ⟨keysNodup_mapSet r s.nextGid s.saveTimers hkeys, ?_, ?_, ?_⟩
    · intro t ht
      rcases List.mem_append.mp ht with ht | ht
      · exact Nat.lt_succ_of_lt (hlt t ht)
      · rw [List.mem_singleton] at ht
        subst ht
        exact Nat.lt_succ_self _
    · intro t ht
      rcases List.mem_append.mp ht with ht | ht
      · rw [mapGet_mapSet_ne r t.room s.nextGid s.saveTimers (hner t ht)]
        exact hcor t ht
      · rw [List.mem_singleton] at ht
        subst ht
        exact mapGet_mapSet_self r s.nextGid s.saveTimers
    · exact nodupGid_append_singleton _ _ hgids
        (fun u hu => Nat.ne_of_lt (hlt u hu))

theorem schedInv_fireTimer (s : SchedulerState) (now gid : Nat) (h : SchedInv s) :
    SchedInv (fireTimer now gid s) := by
  obtain ⟨hkeys, hlt, hcor, hgids⟩ := h
  unfold fireTimer
  cases hf : s.armed.find? (fun t => t.gid == gid && decide (t.fireAt ≤ now)) with
  | none => exact ⟨hkeys, hlt, hcor, hgids⟩
  | some t =>
    have htmem : t ∈ s.armed := List.mem_of_find?_eq_some hf
    have htgid : t.gid = gid := by
      have := List.find?_some hf
      simp at this
      exact this.1
    refine ⟨keysNodup_mapDelete t.room s.saveTimers hkeys, ?_, ?_, ?_⟩
    · exact fun u hu => hlt u (List.mem_of_mem_filter hu)
    · intro u hu
      have humem : u ∈ s.armed := List.mem_of_mem_filter hu
      have hune : u.gid ≠ gid := by simpa using (List.mem_filter.mp hu).2
      have huroom : u.room ≠ t.room := by
        intro hr
        have h1 := hcor u humem
        have h2 := hcor t htmem
        rw [hr, h2] at h1
        exact hune (htgid ▸ Option.some_injective _ h1.symm)
      rw [mapGet_mapDelete_ne t.room u.room s.saveTimers huroom]
      exact hcor u humem
    · exact nodupGid_filter _ _ hgids

theorem schedInv_cancelPendingSave (s : SchedulerState) (r : String) (h : SchedInv s) :
    SchedInv (cancelPendingSave r s) := by
  obtain ⟨hkeys, hlt, hcor, hgids⟩ := h
  unfold cancelPendingSave
  cases hm : mapGet r s.saveTimers with
  | none => exact ⟨hkeys, hlt, hcor, hgids⟩
  | some gid =>
    refine ⟨keysNodup_mapDelete r s.saveTimers hkeys, ?_, ?_, ?_⟩
    · exact fun u hu => hlt u (List.mem_of_mem_filter hu)
    · intro u hu
      have humem : u ∈ s.armed := List.mem_of_mem_filter hu
      have hune : u.gid ≠ gid := by simpa using (List.mem_filter.mp hu).2
      have huroom : u.room ≠ r := by
        intro hr
        have h1 := hcor u humem
        rw [hr, hm] at h1
        exact hune (Option.some_injective _ h1.symm)
      rw [mapGet_mapDelete_ne r u.room s.saveTimers huroom]
      exact hcor u humem
    · exact nodupGid_filter _ _ hgids

theorem schedInv_forceSave (s : SchedulerState) (now : Nat) (r : String)
    (g : Nat → Bytes) (h : SchedInv s) : SchedInv (forceSave now r g s) := by
  have h1 := schedInv_cancelPendingSave s r h
  unfold forceSave
  by_cases hlen : (g now).length ≠ 0
  · rw [if_pos hlen]
    exact h1
  · rw [if_neg hlen]
    exact h1

/-- C10: per room, at most one pending debounce timer ever exists, and
this is preserved by every scheduler operation: `scheduleSave` clears the
room's recorded timeout before arming its own, a firing timeout removes
its own map entry, and `cancelPendingSave` / `forceSave` clear both the
timeout and the entry. -/
theorem save_timer_map_at_most_one_pending (s : SchedulerState) (h : SchedInv s) :
    (∀ r : String, (s.armed.filter (fun t => t.room == r)).length ≤ 1) ∧
    SchedInv initialScheduler ∧
    (∀ now r g, SchedInv (scheduleSave now r g s)) ∧
    (∀ now gid, SchedInv (fireTimer now gid s)) ∧
    (∀ r, SchedInv (cancelPendingSave r s)) ∧
    (∀ now r g, SchedInv (forceSave now r g s)) := by
  obtain ⟨hkeys, hlt, hcor, hgids⟩ := h
  refine ⟨?_, schedInv_initial,
    fun now r g => schedInv_scheduleSave s now r g ⟨hkeys, hlt, hcor, hgids⟩,
    fun now gid => schedInv_fireTimer s now gid ⟨hkeys, hlt, hcor, hgids⟩,
    fun r => schedInv_cancelPendingSave s r ⟨hkeys, hlt, hcor, hgids⟩,
    fun now r g => schedInv_forceSave s now r g ⟨hkeys, hlt, hcor, hgids⟩⟩
  intro r
  cases hl : s.armed.filter (fun t => t.room == r) with
  | nil => simp
  | cons a tl =>
    cases tl with
    | nil => simp
    | cons b tl2 =>
      exfalso
      have ha : a ∈ s.armed.filter (fun t => t.room == r) := by rw [hl]; simp
      have hb : b ∈ s.armed.filter (fun t => t.room == r) := by rw [hl]; simp
      have haroom : a.room = r := by simpa using (List.mem_filter.mp ha).2
      have hbroom : b.room = r := by simpa using (List.mem_filter.mp hb).2
      have hgab : a.gid = b.gid := by
        have h1 := hcor a (List.mem_of_mem_filter ha)
        have h2 := hcor b (List.mem_of_mem_filter hb)
        rw [haroom] at h1
        rw [hbroom] at h2
        rw [h1] at h2
        exact Option.some_injective _ h2
      have hnd : ((s.armed.filter (fun t => t.room == r)).map ArmedTimer.gid).Nodup :=
        nodupGid_filter _ _ hgids
      rw [hl] at hnd
      simp [List.nodup_cons] at hnd
      exact hnd.1.1 hgab

/-- Witness for C10 on a scheduler that has one pending timer. -/
theorem save_timer_map_at_most_one_pending_witness :
    (∀ r : String,
      (((scheduleSave 5 "a:b" (fun _ => [2]) initialScheduler).armed.filter
        (fun t => t.room == r)).length ≤ 1)) ∧
    SchedInv initialScheduler ∧
    (∀ now r g, SchedInv (scheduleSave now r g
      (scheduleSave 5 "a:b" (fun _ => [2]) initialScheduler))) ∧
    (∀ now gid, SchedInv (fireTimer now gid
      (scheduleSave 5 "a:b" (fun _ => [2]) initialScheduler))) ∧
    (∀ r, SchedInv (cancelPendingSave r
      (scheduleSave 5 "a:b" (fun _ => [2]) initialScheduler))) ∧
    (∀ now r g, SchedInv (forceSave now r g
      (scheduleSave 5 "a:b" (fun _ => [2]) initialScheduler))) :=
  save_timer_map_at_most_one_pending (scheduleSave 5 "a:b" (fun _ => [2]) initialScheduler)
    (by
      refine ⟨?_, ?_, ?_, ?_⟩
      · simp [scheduleSave, initialScheduler, mapGet, mapSet, mapDelete]
      · intro t ht
        simp [scheduleSave, initialScheduler, mapGet] at ht
        subst ht
        simp [scheduleSave, initialScheduler, mapGet]
      · intro t ht
        simp [scheduleSave, initialScheduler, mapGet] at ht
        subst ht
        simp [scheduleSave, initialScheduler, mapSet, mapDelete, mapGet]
      · simp [scheduleSave, initialScheduler, mapGet])

/-! ### C6 — forced flush writes at most once, never stale -/

/-- C6: for a room with a pending scheduled save, `forceSave` cancels the
pending timeout and issues at most one write — none exactly when the
flush-time snapshot is empty — whose body is the snapshot taken at flush
time; the cancelled timeout can never fire afterwards, so a second
(stale) write is impossible. -/
theorem force_save_at_most_one_write (s : SchedulerState) (roomId : String)
    (g : Nat → Bytes) (now : Nat) (gid : Nat)
    (hinv : SchedInv s) (hpend : mapGet roomId s.saveTimers = some gid) :
    (forceSave now roomId g s).persistCalls =
      s.persistCalls ++ (if (g now).length ≠ 0 then [(roomId, g now)] else []) ∧
    (∀ t ∈ (forceSave now roomId g s).armed, t.room ≠ roomId) ∧
    (∀ tf, fireTimer tf gid (forceSave now roomId g s) = forceSave now roomId g s) := by
  obtain ⟨hkeys, hlt, hcor, hgids⟩ := hinv
  have hcancel : cancelPendingSave roomId s =
      { s with
          armed := s.armed.filter (fun t => t.gid != gid),
          saveTimers := mapDelete roomId s.saveTimers } := by
    unfold cancelPendingSave
    rw [hpend]
  have harm : (forceSave now roomId g s).armed =
      s.armed.filter (fun t => t.gid != gid) := by
    unfold forceSave
    rw [hcancel]
    split <;> rfl
  have hpc : (forceSave now roomId g s).persistCalls =
      s.persistCalls ++ (if (g now).length ≠ 0 then [(roomId, g now)] else []) := by
    unfold forceSave
    rw [hcancel]
    split <;> simp_all
  refine ⟨hpc, ?_, ?_⟩
  · intro t ht hr
    rw [harm] at ht
    have hne : t.gid ≠ gid := by simpa using (List.mem_filter.mp ht).2
    have h1 := hcor t (List.mem_of_mem_filter ht)
    rw [hr, hpend] at h1
    exact hne (Option.some_injective _ h1.symm)
  · intro tf
    have hfind : (forceSave now roomId g s).armed.find?
        (fun t => t.gid == gid && decide (t.fireAt ≤ tf)) = none := by
      rw [List.find?_eq_none]
      intro t ht
      rw [harm] at ht
      have hne : t.gid ≠ gid := by simpa using (List.mem_filter.mp ht).2
      simp [hne]
    unfold fireTimer
    rw [hfind]

/-- A scheduler holding one pending save for `book1:ch2`. -/
def pendingSched : SchedulerState :=
  scheduleSave 0 "book1:ch2" (fun _ => [1]) initialScheduler

/-- Witness for C6 on the scheduler with one pending save. -/
theorem force_save_at_most_one_write_witness :
    (forceSave 100 "book1:ch2" (fun _ => [7, 8]) pendingSched).persistCalls =
      pendingSched.persistCalls ++
        (if ((fun _ : Nat => ([7, 8] : Bytes)) 100).length ≠ 0
         then [("book1:ch2", (fun _ : Nat => ([7, 8] : Bytes)) 100)] else []) ∧
    (∀ t ∈ (forceSave 100 "book1:ch2" (fun _ => [7, 8]) pendingSched).armed,
      t.room ≠ "book1:ch2") ∧
    (∀ tf, fireTimer tf 0 (forceSave 100 "book1:ch2" (fun _ => [7, 8]) pendingSched) =
      forceSave 100 "book1:ch2" (fun _ => [7, 8]) pendingSched) :=
  force_save_at_most_one_write pendingSched "book1:ch2" (fun _ => [7, 8]) 100 0
    (by simp only [SchedInv]; decide) (by decide)

/-! ### C8 — what a connection close removes -/

theorem sendWith_conns_sublist_of (close : WSDoc → Conn → WSDoc × List (Nat × Bytes))
    (hc : ∀ (d : WSDoc) (c : Conn), (close d c).1.conns.Sublist d.conns)
    (d : WSDoc) (c : Conn) (m : Bytes) :
    (sendWith close d c m).1.conns.Sublist d.conns := by
  unfold sendWith
  split <;> split <;> first
    | exact hc d c
    | exact List.Sublist.refl _

theorem sendAllWith_conns_sublist_of (close : WSDoc → Conn → WSDoc × List (Nat × Bytes))
    (hc : ∀ (d : WSDoc) (c : Conn), (close d c).1.conns.Sublist d.conns) :
    ∀ (ts : List Conn) (d : WSDoc) (m : Bytes),
      (sendAllWith close d ts m).1.conns.Sublist d.conns := by
  intro ts
  induction ts with
  | nil => intro d m; exact List.Sublist.refl _
  | cons c cs ih =>
    intro d m
    simp only [sendAllWith]
    exact (ih _ _).trans (sendWith_conns_sublist_of close hc d c m)

theorem closeConnF_conns_sublist (P : DocCapability) :
    ∀ (fuel : Nat) (d : WSDoc) (c : Conn),
      (closeConnF P fuel d c).1.conns.Sublist d.conns := by
  intro fuel
  induction fuel with
  | zero => intro d c; exact List.Sublist.refl _
  | succ fuel ih =>
    intro d c
    rw [closeConnF_succ]
    split
    · dsimp only
      split
      · exact List.filter_sublist _
      · exact (sendAllWith_conns_sublist_of _ ih _ _ _).trans (List.filter_sublist _)
    · exact List.Sublist.refl _

theorem sendWith_aw_sublist_of (close : WSDoc → Conn → WSDoc × List (Nat × Bytes))
    (hc : ∀ (d : WSDoc) (c : Conn), (close d c).1.awStates.Sublist d.awStates)
    (d : WSDoc) (c : Conn) (m : Bytes) :
    (sendWith close d c m).1.awStates.Sublist d.awStates := by
  unfold sendWith
  split <;> split <;> first
    | exact hc d c
    | exact List.Sublist.refl _

theorem sendAllWith_aw_sublist_of (close : WSDoc → Conn → WSDoc × List (Nat × Bytes))
    (hc : ∀ (d : WSDoc) (c : Conn), (close d c).1.awStates.Sublist d.awStates) :
    ∀ (ts : List Conn) (d : WSDoc) (m : Bytes),
      (sendAllWith close d ts m).1.awStates.Sublist d.awStates := by
  intro ts
  induction ts with
  | nil => intro d m; exact List.Sublist.refl _
  | cons c cs ih =>
    intro d m
    simp only [sendAllWith]
    exact (ih _ _).trans (sendWith_aw_sublist_of close hc d c m)

theorem closeConnF_aw_sublist (P : DocCapability) :
    ∀ (fuel : Nat) (d : WSDoc) (c : Conn),
      (closeConnF P fuel d c).1.awStates.Sublist d.awStates := by
  intro fuel
  induction fuel with
  | zero => intro d c; exact List.Sublist.refl _
  | succ fuel ih =>
    intro d c
    rw [closeConnF_succ]
    split
    · dsimp only
      split
      · exact List.filter_sublist _
      · exact (sendAllWith_aw_sublist_of _ ih _ _ _).trans (List.filter_sublist _)
    · exact List.Sublist.refl _

theorem sendAllWith_live_mem_of (close : WSDoc → Conn → WSDoc × List (Nat × Bytes))
    (hc : ∀ (d : WSDoc) (c : Conn) (e : Conn × List Nat), e ∈ d.conns → e.1 ≠ c →
      (e.1.readyState = wsReadyStateConnecting ∨ e.1.readyState = wsReadyStateOpen) →
      e ∈ (close d c).1.conns) :
    ∀ (ts : List Conn) (d : WSDoc) (m : Bytes) (e : Conn × List Nat), e ∈ d.conns →
      (e.1.readyState = wsReadyStateConnecting ∨ e.1.readyState = wsReadyStateOpen) →
      e ∈ (sendAllWith close d ts m).1.conns := by
  intro ts
  induction ts with
  | nil => intro d m e he _; exact he
  | cons c cs ih =>
    intro d m e he hlive
    simp only [sendAllWith]
    refine ih _ _ e ?_ hlive
    by_cases h0 : c.readyState = wsReadyStateConnecting
    · rw [sendWith_of_open close d c m (Or.inl h0)]
      exact he
    · by_cases h1 : c.readyState = wsReadyStateOpen
      · rw [sendWith_of_open close d c m (Or.inr h1)]
        exact he
      · rw [sendWith_dead close d c m h0 h1]
        refine hc d c e he ?_ hlive
        intro hEq
        rcases hlive with hl | hl
        · exact h0 (hEq ▸ hl)
        · exact h1 (hEq ▸ hl)

/-- A live connection other than the one being closed always survives the
close, cascade included: the cascade only prunes dead transports. -/
theorem closeConnF_live_mem (P : DocCapability) :
    ∀ (fuel : Nat) (d : WSDoc) (c : Conn) (e : Conn × List Nat), e ∈ d.conns → e.1 ≠ c →
      (e.1.readyState = wsReadyStateConnecting ∨ e.1.readyState = wsReadyStateOpen) →
      e ∈ (closeConnF P fuel d c).1.conns := by
  intro fuel
  induction fuel with
  | zero => intro d c e he _ _; exact he
  | succ fuel ih =>
    intro d c e he hne hlive
    rw [closeConnF_succ]
    split
    · dsimp only
      have hef : e ∈ d.conns.filter (fun x => x.1 != c) :=
        List.mem_filter.mpr ⟨he, by simpa using hne⟩
      split
      · exact hef
      · exact sendAllWith_live_mem_of _ ih _ _ _ e hef hlive
    · exact he

/-- With a registered connection, the close removes it for good: the
cascade never re-adds a connection. -/
theorem closeConnF_removes (P : DocCapability) (fuel : Nat) (doc : WSDoc) (conn : Conn)
    (hany : doc.conns.any (fun e => e.1 == conn) = true) :
    conn ∉ (closeConnF P (fuel + 1) doc conn).1.conns.map Prod.fst := by
  rw [closeConnF_succ, if_pos hany]
  dsimp only
  split
  · intro hcmem
    rcases List.mem_map.mp hcmem with ⟨e, he, rfl⟩
    have h2 := (List.mem_filter.mp he).2
    simp at h2
  · intro hcmem
    rcases List.mem_map.mp hcmem with ⟨e, he, rfl⟩
    have he2 :=
      (sendAllWith_conns_sublist_of _ (closeConnF_conns_sublist P fuel) _ _ _).subset he
    have h2 := (List.mem_filter.mp he2).2
    simp at h2

/-- The awareness entries surviving a close were all there before and
none of them belongs to the closed connection's controlled set. -/
theorem closeConnF_aw_removed (P : DocCapability) (fuel : Nat) (doc : WSDoc) (conn : Conn)
    (hany : doc.conns.any (fun e => e.1 == conn) = true) :
    ∀ a ∈ (closeConnF P (fuel + 1) doc conn).1.awStates, a ∈ doc.awStates ∧
      a.1 ∉ (doc.conns.find? (fun e => e.1 == conn)).elim [] Prod.snd := by
  rw [closeConnF_succ, if_pos hany]
  dsimp only
  intro a ha
  have had2 : a ∈ doc.awStates.filter (fun x =>
      !(((doc.conns.find? (fun e => e.1 == conn)).elim [] Prod.snd).contains x.1)) := by
    revert ha
    split
    · exact fun ha => ha
    · intro ha
      exact (sendAllWith_aw_sublist_of _ (closeConnF_aw_sublist P fuel) _ _ _).subset ha
  have h1 := (List.mem_filter.mp had2).1
  have h2 := (List.mem_filter.mp had2).2
  refine ⟨h1, ?_⟩
  simpa using h2

/-- A room where live connection 1 controls the presence entry of
client 7 and connection 2 has a dead transport (ready state 3). -/
def cascadeRoom : WSDoc where
  name := "book1:ch2"
  conns := [(⟨1, 1⟩, [7]), (⟨2, 3⟩, [])]
  yState := []
  awStates := [(7, [9])]
  encryptedState := none
  isEncrypted := false

/-- Counterexample for C8 as stated: the close of a connection does not
leave every other connection in place.  In `cascadeRoom`, live connection
1 controls the presence entry of client 7 and connection 2 is dead;
closing connection 1 revokes client 7, and the awareness-removal
broadcast this triggers reaches dead connection 2, which is thereby
pruned as well — a connection other than the closed one has left the
set. -/
theorem close_conn_prunes_dead_peer_cex :
    ((⟨2, 3⟩ : Conn), ([] : List Nat)) ∈ cascadeRoom.conns ∧
    (⟨2, 3⟩ : Conn) ≠ (⟨1, 1⟩ : Conn) ∧
    ((⟨2, 3⟩ : Conn), ([] : List Nat)) ∉
      (closeConn constCapability cascadeRoom ⟨1, 1⟩).1.conns := by
  decide

/-- C8 (amended): on a connection close (explicit, or dead-transport
pruning during a broadcast), the connection is removed from the session's
map and every awareness entry that survives is a pre-existing entry for a
client ID the closed connection did not control; no connection is ever
added, every other connection with a live transport remains, and the
session itself — name, document state, encrypted blob, mode, and its
registry slot — stays in place.  The close broadcasts the presence
removal to the remaining connections, and this broadcast prunes dead peer
connections (each such pruning being itself a connection close); when
every other connection is live, exactly the closed connection and its
controlled presence entries are removed. -/
theorem close_conn_removes_connection_and_presence (P : DocCapability) (doc : WSDoc)
    (conn : Conn) (hmem : conn ∈ doc.conns.map Prod.fst) :
    conn ∉ (closeConn P doc conn).1.conns.map Prod.fst ∧
    (∀ e ∈ (closeConn P doc conn).1.conns, e ∈ doc.conns) ∧
    (∀ e ∈ doc.conns, e.1 ≠ conn →
      (e.1.readyState = wsReadyStateConnecting ∨ e.1.readyState = wsReadyStateOpen) →
      e ∈ (closeConn P doc conn).1.conns) ∧
    (∀ a ∈ (closeConn P doc conn).1.awStates, a ∈ doc.awStates ∧
      a.1 ∉ (doc.conns.find? (fun e => e.1 == conn)).elim [] Prod.snd) ∧
    (closeConn P doc conn).1.name = doc.name ∧
    (closeConn P doc conn).1.yState = doc.yState ∧
    (closeConn P doc conn).1.encryptedState = doc.encryptedState ∧
    (closeConn P doc conn).1.isEncrypted = doc.isEncrypted ∧
    (∀ registry : List (String × WSDoc), ∀ nm : String,
      (handleConnClose P registry nm conn).map Prod.fst = registry.map Prod.fst) ∧
    (∀ m, conn.readyState ≠ wsReadyStateConnecting → conn.readyState ≠ wsReadyStateOpen →
      send P doc conn m = closeConn P doc conn) ∧
    ((∀ e ∈ doc.conns, e.1 ≠ conn →
        (e.1.readyState = wsReadyStateConnecting ∨ e.1.readyState = wsReadyStateOpen)) →
      (closeConn P doc conn).1.conns = doc.conns.filter (fun e => e.1 != conn) ∧
      (closeConn P doc conn).1.awStates = doc.awStates.filter (fun a =>
        !(((doc.conns.find? (fun e => e.1 == conn)).elim [] Prod.snd).contains a.1))) := by
  have hany : doc.conns.any (fun e => e.1 == conn) = true := by
    rcases List.mem_map.mp hmem with ⟨e, he, rfl⟩
    exact List.any_eq_true.mpr ⟨e, he, by simp⟩
  refine ⟨closeConnF_removes P doc.conns.length doc conn hany,
    fun e he => (closeConnF_conns_sublist P (doc.conns.length + 1) doc conn).subset he,
    fun e he hne hlive => closeConnF_live_mem P (doc.conns.length + 1) doc conn e he hne hlive,
    closeConnF_aw_removed P doc.conns.length doc conn hany,
    (closeConn_fields P doc conn).1, (closeConn_fields P doc conn).2.1,
    (closeConn_fields P doc conn).2.2.1, (closeConn_fields P doc conn).2.2.2,
    ?_, ?_, ?_⟩
  · intro registry nm
    simp [handleConnClose, List.map_map, Function.comp, apply_ite Prod.fst]
  · intro m h0 h1
    exact sendWith_dead (closeConn P) doc conn m h0 h1
  · intro hall
    rw [show closeConn P doc conn = closeConnF P (doc.conns.length + 1) doc conn from rfl,
      closeConnF_succ, if_pos hany]
    dsimp only
    split
    · exact ⟨rfl, rfl⟩
    · rw [sendAllWith_of_open]
      · exact ⟨rfl, rfl⟩
      · intro x hx
        rcases List.mem_map.mp hx with ⟨e, he, rfl⟩
        have hed := List.mem_filter.mp he
        refine hall e hed.1 ?_
        simpa using hed.2

/-- Witness for C8's amended statement on the cascade room, closing the
live connection that controls a presence entry. -/
theorem close_conn_removes_connection_and_presence_witness :
    (⟨1, 1⟩ : Conn) ∉
      (closeConn constCapability cascadeRoom ⟨1, 1⟩).1.conns.map Prod.fst ∧
    (∀ e ∈ (closeConn constCapability cascadeRoom ⟨1, 1⟩).1.conns, e ∈ cascadeRoom.conns) ∧
    (∀ e ∈ cascadeRoom.conns, e.1 ≠ ⟨1, 1⟩ →
      (e.1.readyState = wsReadyStateConnecting ∨ e.1.readyState = wsReadyStateOpen) →
      e ∈ (closeConn constCapability cascadeRoom ⟨1, 1⟩).1.conns) ∧
    (∀ a ∈ (closeConn constCapability cascadeRoom ⟨1, 1⟩).1.awStates,
      a ∈ cascadeRoom.awStates ∧
      a.1 ∉ (cascadeRoom.conns.find? (fun e => e.1 == ⟨1, 1⟩)).elim [] Prod.snd) ∧
    (closeConn constCapability cascadeRoom ⟨1, 1⟩).1.name = cascadeRoom.name ∧
    (closeConn constCapability cascadeRoom ⟨1, 1⟩).1.yState = cascadeRoom.yState ∧
    (closeConn constCapability cascadeRoom ⟨1, 1⟩).1.encryptedState =
      cascadeRoom.encryptedState ∧
    (closeConn constCapability cascadeRoom ⟨1, 1⟩).1.isEncrypted = cascadeRoom.isEncrypted ∧
    (∀ registry : List (String × WSDoc), ∀ nm : String,
      (handleConnClose constCapability registry nm ⟨1, 1⟩).map Prod.fst =
        registry.map Prod.fst) ∧
    (∀ m, (⟨1, 1⟩ : Conn).readyState ≠ wsReadyStateConnecting →
      (⟨1, 1⟩ : Conn).readyState ≠ wsReadyStateOpen →
      send constCapability cascadeRoom ⟨1, 1⟩ m =
        closeConn constCapability cascadeRoom ⟨1, 1⟩) ∧
    ((∀ e ∈ cascadeRoom.conns, e.1 ≠ ⟨1, 1⟩ →
        (e.1.readyState = wsReadyStateConnecting ∨ e.1.readyState = wsReadyStateOpen)) →
      (closeConn constCapability cascadeRoom ⟨1, 1⟩).1.conns =
        cascadeRoom.conns.filter (fun e => e.1 != ⟨1, 1⟩) ∧
      (closeConn constCapability cascadeRoom ⟨1, 1⟩).1.awStates =
        cascadeRoom.awStates.filter (fun a =>
          !(((cascadeRoom.conns.find? (fun e => e.1 == ⟨1, 1⟩)).elim [] Prod.snd).contains
            a.1))) :=
  close_conn_removes_connection_and_presence constCapability cascadeRoom ⟨1, 1⟩ (by decide)


/-! ### C5 — a debounced burst produces exactly one write -/

theorem scheduleSave_clean (room : String) (now : Nat) (g2 : Nat → Bytes)
    (s0 : SchedulerState) (hmap : mapGet room s0.saveTimers = none) :
    scheduleSave now room g2 s0 =
      { armed := s0.armed ++ [⟨room, s0.nextGid, now + SAVE_DEBOUNCE_MS, g2⟩],
        saveTimers := mapSet room s0.nextGid s0.saveTimers,
        nextGid := s0.nextGid + 1,
        persistCalls := s0.persistCalls } := by
  unfold scheduleSave
  rw [hmap]

theorem scheduleSave_step (room : String) (now : Nat) (g2 : Nat → Bytes)
    (base : List ArmedTimer) (mp : List (String × Nat)) (pc : List (String × Bytes))
    (g n tm : Nat) (gf : Nat → Bytes)
    (hb3 : ∀ u ∈ base, u.gid ≠ g) :
    scheduleSave now room g2
      { armed := base ++ [⟨room, g, tm, gf⟩],
        saveTimers := mapSet room g mp, nextGid := n, persistCalls := pc } =
      { armed := base ++ [⟨room, n, now + SAVE_DEBOUNCE_MS, g2⟩],
        saveTimers := mapSet room n mp, nextGid := n + 1, persistCalls := pc } := by
  have hclr : (base ++ [(⟨room, g, tm, gf⟩ : ArmedTimer)]).filter
      (fun t => t.gid != g) = base := by
    rw [List.filter_append]
    have h1 : base.filter (fun t => t.gid != g) = base :=
      List.filter_eq_self.mpr (fun u hu => by simpa using hb3 u hu)
    have h2 : ([(⟨room, g, tm, gf⟩ : ArmedTimer)]).filter (fun t => t.gid != g) = [] := by
      simp
    rw [h1, h2, List.append_nil]
  unfold scheduleSave
  simp only [mapGet_mapSet_self, mapSet_mapSet, hclr]

theorem runBurst_cons (room : String) (s : SchedulerState) (c : Nat × (Nat → Bytes))
    (cs : List (Nat × (Nat → Bytes))) :
    runBurst room s (c :: cs) = runBurst room (scheduleSave c.1 room c.2 s) cs := rfl

theorem runBurst_loop (room : String) (c : Nat × (Nat → Bytes))
    (cs : List (Nat × (Nat → Bytes))) :
    ∀ (base : List ArmedTimer) (mp : List (String × Nat)) (pc : List (String × Bytes))
      (g n tm : Nat) (gf : Nat → Bytes),
      (∀ u ∈ base, u.gid < n) → (∀ u ∈ base, u.gid ≠ g) →
      runBurst room
        { armed := base ++ [⟨room, g, tm, gf⟩],
          saveTimers := mapSet room g mp, nextGid := n, persistCalls := pc }
        (c :: cs)
      = { armed := base ++ [⟨room, n + cs.length,
            (cs.getLastD c).1 + SAVE_DEBOUNCE_MS, (cs.getLastD c).2⟩],
          saveTimers := mapSet room (n + cs.length) mp,
          nextGid := n + cs.length + 1, persistCalls := pc } := by
  induction cs generalizing c with
  | nil =>
    intro base mp pc g n tm gf hb2 hb3
    simp only [runBurst]
    rw [scheduleSave_step room c.1 c.2 base mp pc g n tm gf hb3]
    simp
  | cons c2 cs ih =>
    intro base mp pc g n tm gf hb2 hb3
    rw [runBurst_cons]
    rw [scheduleSave_step room c.1 c.2 base mp pc g n tm gf hb3]
    rw [ih c2 base mp pc n (n + 1) (c.1 + SAVE_DEBOUNCE_MS) c.2
      (fun u hu => Nat.lt_succ_of_lt (hb2 u hu))
      (fun u hu => Nat.ne_of_lt (hb2 u hu))]
    simp only [List.length_cons, List.getLastD_cons]
    have harith : n + 1 + cs.length = n + (cs.length + 1) := by omega
    rw [harith]

theorem runBurst_clean (s0 : SchedulerState) (room : String) (c : Nat × (Nat → Bytes))
    (cs : List (Nat × (Nat → Bytes)))
    (hfresh : ∀ t ∈ s0.armed, t.gid < s0.nextGid)
    (hmap : mapGet room s0.saveTimers = none) :
    runBurst room s0 (c :: cs) =
      { armed := s0.armed ++ [⟨room, s0.nextGid + cs.length,
          (cs.getLastD c).1 + SAVE_DEBOUNCE_MS, (cs.getLastD c).2⟩],
        saveTimers := mapSet room (s0.nextGid + cs.length) s0.saveTimers,
        nextGid := s0.nextGid + cs.length + 1,
        persistCalls := s0.persistCalls } := by
  cases cs with
  | nil =>
    simp only [runBurst]
    rw [scheduleSave_clean room c.1 c.2 s0 hmap]
    simp
  | cons c2 cs2 =>
    rw [runBurst_cons]
    rw [scheduleSave_clean room c.1 c.2 s0 hmap]
    rw [runBurst_loop room c2 cs2 s0.armed s0.saveTimers s0.persistCalls
      s0.nextGid (s0.nextGid + 1) (c.1 + SAVE_DEBOUNCE_MS) c.2
      (fun u hu => Nat.lt_succ_of_lt (hfresh u hu))
      (fun u hu => Nat.ne_of_lt (hfresh u hu))]
    simp only [List.length_cons, List.getLastD_cons]
    have harith : s0.nextGid + 1 + cs2.length = s0.nextGid + (cs2.length + 1) := by omega
    rw [harith]

theorem fireTimer_found (now gid : Nat) (s : SchedulerState) (t : ArmedTimer)
    (hfind : s.armed.find? (fun u => u.gid == gid && decide (u.fireAt ≤ now)) = some t) :
    fireTimer now gid s =
      { armed := s.armed.filter (fun u => u.gid != gid),
        saveTimers := mapDelete t.room s.saveTimers,
        nextGid := s.nextGid,
        persistCalls := s.persistCalls ++
          (if (t.getState now).length ≠ 0 then [(t.room, t.getState now)] else []) } := by
  unfold fireTimer
  rw [hfind]

/-- C5: a burst of debounced save calls for one room, each arriving
within one debounce window of its predecessor and starting from a state
with no pending timer for the room, (i) issues no write during the burst,
(ii) leaves exactly one armed timeout for the room — the one created by
the last call, carrying its getter and its deadline — each call having
cancelled its predecessor's still-unexpired timeout, (iii) never lets a
pending timeout for the room expire before the next call of the burst
arrives, and (iv) on expiry of the surviving timeout produces exactly one
write whose body is the snapshot the last call's getter returns at fire
time (no write when that snapshot is empty), after which nothing for the
room remains armed. -/
theorem schedule_save_burst_single_write (s0 : SchedulerState) (room : String)
    (c : Nat × (Nat → Bytes)) (cs : List (Nat × (Nat → Bytes)))
    (hfresh : ∀ t ∈ s0.armed, t.gid < s0.nextGid)
    (hclean : ∀ t ∈ s0.armed, t.room ≠ room)
    (hmap : mapGet room s0.saveTimers = none)
    (hwin : List.Chain' (fun a b => b.1 < a.1 + SAVE_DEBOUNCE_MS) (c :: cs)) :
    (runBurst room s0 (c :: cs)).persistCalls = s0.persistCalls ∧
    (runBurst room s0 (c :: cs)).armed =
      s0.armed ++ [⟨room, s0.nextGid + cs.length,
        (cs.getLastD c).1 + SAVE_DEBOUNCE_MS, (cs.getLastD c).2⟩] ∧
    (∀ p c2 q, c :: cs = p ++ c2 :: q →
      ∀ t ∈ (runBurst room s0 p).armed, t.room = room → c2.1 < t.fireAt) ∧
    (∀ tf, (cs.getLastD c).1 + SAVE_DEBOUNCE_MS ≤ tf →
      (fireTimer tf (s0.nextGid + cs.length) (runBurst room s0 (c :: cs))).persistCalls =
        s0.persistCalls ++ (if ((cs.getLastD c).2 tf).length ≠ 0
          then [(room, (cs.getLastD c).2 tf)] else []) ∧
      (fireTimer tf (s0.nextGid + cs.length) (runBurst room s0 (c :: cs))).armed =
        s0.armed) := by
  have hrb := runBurst_clean s0 room c cs hfresh hmap
  refine ⟨by rw [hrb], by rw [hrb], ?_, ?_⟩
  · intro p c2 q hsplit t ht hroom
    cases p with
    | nil =>
      simp only [runBurst] at ht
      exact absurd hroom (hclean t ht)
    | cons p0 p2 =>
      rw [List.cons_append] at hsplit
      injection hsplit with h1 h2
      subst h1
      have hpre := runBurst_clean s0 room c p2 hfresh hmap
      rw [hpre] at ht
      rcases List.mem_append.mp ht with ht | ht
      · exact absurd hroom (hclean t ht)
      · rw [List.mem_singleton] at ht
        subst ht
        have hchain : c2.1 < (p2.getLastD c).1 + SAVE_DEBOUNCE_MS := by
          rw [h2, show c :: (p2 ++ c2 :: q) = (c :: p2) ++ (c2 :: q) from rfl] at hwin
          have hlink := (List.chain'_append.mp hwin).2.2
          have hlast : (c :: p2).getLast? = some (p2.getLastD c) := by
            rw [List.getLast?_cons, List.getLastD_eq_getLast?]
          exact hlink (p2.getLastD c) (by rw [hlast]; rfl) c2 rfl
        exact hchain
  · intro tf htf
    rw [hrb]
    have hfind : ((s0.armed ++ [(⟨room, s0.nextGid + cs.length,
        (cs.getLastD c).1 + SAVE_DEBOUNCE_MS, (cs.getLastD c).2⟩ : ArmedTimer)]).find?
        (fun u => u.gid == s0.nextGid + cs.length && decide (u.fireAt ≤ tf))) =
        some (⟨room, s0.nextGid + cs.length,
          (cs.getLastD c).1 + SAVE_DEBOUNCE_MS, (cs.getLastD c).2⟩ : ArmedTimer) := by
      rw [List.find?_append]
      have h1 : s0.armed.find?
          (fun u => u.gid == s0.nextGid + cs.length && decide (u.fireAt ≤ tf)) = none := by
        rw [List.find?_eq_none]
        intro u hu
        have hul := hfresh u hu
        simp only [Bool.and_eq_true, beq_iff_eq, decide_eq_true_eq, not_and]
        intro hg
        omega
      have h2 : ([(⟨room, s0.nextGid + cs.length,
          (cs.getLastD c).1 + SAVE_DEBOUNCE_MS, (cs.getLastD c).2⟩ : ArmedTimer)]).find?
          (fun u => u.gid == s0.nextGid + cs.length && decide (u.fireAt ≤ tf)) =
          some (⟨room, s0.nextGid + cs.length,
            (cs.getLastD c).1 + SAVE_DEBOUNCE_MS, (cs.getLastD c).2⟩ : ArmedTimer) := by
        rw [List.find?_cons_of_pos]
        simp only [Bool.and_eq_true, beq_iff_eq, decide_eq_true_eq]
        exact ⟨trivial, htf⟩
      rw [h1, h2]
      rfl
    rw [fireTimer_found tf (s0.nextGid + cs.length) _ _ hfind]
    refine ⟨rfl, ?_⟩
    rw [List.filter_append]
    have h1 : s0.armed.filter (fun u => u.gid != s0.nextGid + cs.length) = s0.armed := by
      refine List.filter_eq_self.mpr (fun u hu => ?_)
      have := hfresh u hu
      simp only [bne_iff_ne, ne_eq]
      omega
    have h2 : ([(⟨room, s0.nextGid + cs.length,
        (cs.getLastD c).1 + SAVE_DEBOUNCE_MS, (cs.getLastD c).2⟩ : ArmedTimer)]).filter
        (fun u => u.gid != s0.nextGid + cs.length) = [] := by
      simp
    rw [h1, h2, List.append_nil]

/-- The first call of a concrete three-call burst. -/
def burstCall0 : Nat × (Nat → Bytes) := (0, fun _ => [1])

/-- The remaining calls of the concrete burst, at times 1000 and 1500. -/
def burstCalls : List (Nat × (Nat → Bytes)) := [(1000, fun _ => [2]), (1500, fun _ => [9, 9])]

/-- Witness for C5: a three-call burst at times 0, 1000, 1500 for
`book1:ch2` from the empty scheduler. -/
theorem schedule_save_burst_single_write_witness :
    (runBurst "book1:ch2" initialScheduler (burstCall0 :: burstCalls)).persistCalls =
      initialScheduler.persistCalls ∧
    (runBurst "book1:ch2" initialScheduler (burstCall0 :: burstCalls)).armed =
      initialScheduler.armed ++ [⟨"book1:ch2", initialScheduler.nextGid + burstCalls.length,
        (burstCalls.getLastD burstCall0).1 + SAVE_DEBOUNCE_MS,
        (burstCalls.getLastD burstCall0).2⟩] ∧
    (∀ p c2 q, burstCall0 :: burstCalls = p ++ c2 :: q →
      ∀ t ∈ (runBurst "book1:ch2" initialScheduler p).armed, t.room = "book1:ch2" →
        c2.1 < t.fireAt) ∧
    (∀ tf, (burstCalls.getLastD burstCall0).1 + SAVE_DEBOUNCE_MS ≤ tf →
      (fireTimer tf (initialScheduler.nextGid + burstCalls.length)
        (runBurst "book1:ch2" initialScheduler (burstCall0 :: burstCalls))).persistCalls =
        initialScheduler.persistCalls ++
          (if ((burstCalls.getLastD burstCall0).2 tf).length ≠ 0
           then [("book1:ch2", (burstCalls.getLastD burstCall0).2 tf)] else []) ∧
      (fireTimer tf (initialScheduler.nextGid + burstCalls.length)
        (runBurst "book1:ch2" initialScheduler (burstCall0 :: burstCalls))).armed =
        initialScheduler.armed) :=
  schedule_save_burst_single_write initialScheduler "book1:ch2" burstCall0 burstCalls
    (by decide) (by decide) (by decide)
    (by norm_num [burstCall0, burstCalls, List.chain'_cons, SAVE_DEBOUNCE_MS])

end IronInk
